import Mathlib

/-!
Verification development for `bin/prepare.py` of artic-network/prepare-nf.

The program is a linear pipeline over a pandas DataFrame:
load CSV → `check_metadata` → `add_fastq_path_to_metadata` →
`add_amplicon_scheme_to_metadata` → `add_platform_to_metadata` → `save_metadata`.

Shallow embedding conventions:
* A DataFrame is a `Table`: an ordered list of column names and rows of cells.
  A cell is `Option String`; `none` models a pandas missing value (NaN/None),
  `some s` a string value.  (Numeric dtype inference of `read_csv` is outside
  the model; all values are kept as strings.)
* Python exceptions are modelled by `Except PrepError`.  The named
  constructors correspond to the distinct `ValueError` messages raised by the
  script; `RuntimeTypeError` models unnamed Python crashes (`TypeError` /
  `KeyError` / `AttributeError`) that the script can hit on degenerate inputs
  (e.g. a NaN barcode reaching `os.path.join`, or `dropna` on a column that
  was never created).
* The filesystem is passed in explicitly: the run directory's entry names as
  a list (`glob` is modelled on those names), and an existence predicate for
  the custom scheme path.  `pathlib.Path(run_dir).resolve()` is modelled as
  the identity on an already-resolved absolute path, which is supplied as the
  `runDir` argument.
* `re.match(r'^\S*\/\d{3,}\/v\d\.\d\.\d(-\S+)?$', s)` is modelled as a
  backtracking matcher on `s.data`; `$` is modelled as end of string (the
  Python subtlety that `$` also matches before one final newline is not
  modelled; inputs are treated as single-line).
-/

deriving instance DecidableEq for Except

/-- Python `str.lower()` on the ASCII range, on the character data of the
string (kernel-computable, unlike `String.toLower`). -/
def strLower (s : String) : String := ⟨s.data.map Char.toLower⟩

/-- The first character of `s` is `c`. -/
def strStartsWithChar (s : String) (c : Char) : Bool := s.data.head? == some c

/-- The last character of `s` is `c`. -/
def strEndsWithChar (s : String) (c : Char) : Bool := s.data.getLast? == some c

/-- Index of the first occurrence of a column name in a header (the length
of the header when absent). -/
def colIdx (c : String) : List String → Nat
  | [] => 0
  | x :: xs => if x == c then 0 else colIdx c xs + 1

/-- Membership of a name in a header. -/
def containsStr (l : List String) (c : String) : Bool := l.any (fun x => x == c)

/-- Number of occurrences of a name in a header. -/
def countStr (c : String) : List String → Nat
  | [] => 0
  | x :: xs => (if x == c then 1 else 0) + countStr c xs

/-- Errors raised by the script.  The first seven match the spec's names for
the script's distinct `ValueError`s; `RuntimeTypeError` stands for any other
uncaught Python exception on degenerate inputs. -/
inductive PrepError where
  | UnsupportedFormat
  | MissingColumns
  | DuplicateBarcode
  | DuplicateSample
  | UnsupportedPlatform
  | CustomSchemePathNotFound
  | InvalidSchemeFormat
  | RuntimeTypeError
deriving DecidableEq, Repr

/-- A pandas DataFrame: ordered column names and rows of cells.
A cell `none` is a missing value (NaN). -/
structure Table where
  cols : List String
  rows : List (List (Option String))
deriving DecidableEq, Repr

/-- Cell of a row at a named column (first occurrence); `none` when the
column is absent or the cell is missing. -/
def getCell (cols : List String) (r : List (Option String)) (c : String) : Option String :=
  r.getD (colIdx c cols) none

/-- The values of one column, in row order (`metadata[c]`). -/
def colValues (t : Table) (c : String) : List (Option String) :=
  t.rows.map (fun r => getCell t.cols r c)

/-- Set a whole column to one constant value (`metadata[c] = const`):
overwrite in place when the column exists, else append it at the end. -/
def setConstCol (t : Table) (c : String) (v : Option String) : Table :=
  if containsStr t.cols c then
    { cols := t.cols, rows := t.rows.map (fun r => r.set (colIdx c t.cols) v) }
  else
    { cols := t.cols ++ [c], rows := t.rows.map (fun r => r ++ [v]) }

/-- Well-formedness: every row has exactly one cell per column. -/
def wfTable (t : Table) : Bool := t.rows.all (fun r => r.length == t.cols.length)

/-!  ## Schema checker (`check_metadata`)  -/

/-- `required_columns = ['sample', 'barcode']`. -/
def requiredColumns : List String := ["sample", "barcode"]

/-- One metadata column name matches a required canonical name when its
lower-cased form is the canonical name, its plural, or its `_name` form. -/
def matchesRequired (col : String) (mcol : String) : Bool :=
  strLower mcol == col || strLower mcol == col ++ "s" || strLower mcol == col ++ "_name"

/-- Python dict assignment `d[k] = v`: overwrite the existing key in place,
else append the binding. -/
def dictInsert (d : List (String × String)) (k v : String) : List (String × String) :=
  if d.any (fun p => p.1 == k) then d.map (fun p => if p.1 == k then (k, v) else p)
  else d ++ [(k, v)]

/-- `key_dict` of `check_metadata`: for each required canonical name, the
first metadata column matching one of its accepted forms, mapped to the
canonical name. -/
def keyDict (cols : List String) : List (String × String) :=
  requiredColumns.foldl (fun d col =>
    match cols.find? (fun mcol => matchesRequired col mcol) with
    | some mcol => dictInsert d mcol col
    | none => d) []

/-- `metadata.rename(columns=key_dict)`: every column whose name is a key of
`key_dict` is renamed to the bound canonical name, in place. -/
def renameCols (cols : List String) : List String :=
  cols.map (fun c => match (keyDict cols).find? (fun p => p.1 == c) with
    | some p => p.2
    | none => c)

/-- `check_metadata`: match and rename the required columns, reject duplicate
barcode / sample values (`unique().size == size`), then drop rows with a
missing sample.  Accessing `metadata['barcode']` (resp. `['sample']`) when
the renamed header does not contain that name exactly once is a Python crash
(`KeyError`, or `AttributeError` on the duplicate-name DataFrame), modelled
as `RuntimeTypeError`. -/
def check_metadata (t : Table) : Except PrepError Table :=
  if (keyDict t.cols).length != requiredColumns.length then .error .MissingColumns
  else
    let cols1 := renameCols t.cols
    let t1 : Table := { cols := cols1, rows := t.rows }
    if countStr "barcode" cols1 != 1 then .error .RuntimeTypeError
    else if (colValues t1 "barcode").dedup.length != (colValues t1 "barcode").length then
      .error .DuplicateBarcode
    else if countStr "sample" cols1 != 1 then .error .RuntimeTypeError
    else if (colValues t1 "sample").dedup.length != (colValues t1 "sample").length then
      .error .DuplicateSample
    else .ok { cols := cols1, rows := t1.rows.filter (fun r => (getCell cols1 r "sample").isSome) }

/-!  ## Path resolver (`add_fastq_path_to_metadata`)  -/

/-- `os.path.join(a, b)` for POSIX paths as used here. -/
def pathJoin (a b : String) : String :=
  if strStartsWithChar b '/' then b
  else if a == "" then b
  else if strEndsWithChar a '/' then a ++ b
  else a ++ "/" ++ b

/-- `startsWithList l pat`: `pat` is a prefix of `l`. -/
def startsWithList : List Char → List Char → Bool
  | _, [] => true
  | [], _ :: _ => false
  | c :: cs, p :: ps => c == p && startsWithList cs ps

/-- `hasSub pat l`: `pat` occurs as a contiguous substring of `l`. -/
def hasSub (pat : List Char) : List Char → Bool
  | [] => startsWithList [] pat
  | c :: rest => startsWithList (c :: rest) pat || hasSub pat rest

/-- An entry name matches the glob pattern `*arcode*`: it contains `arcode`
as a substring and (glob's rule for a leading `*`) is not a hidden name
starting with `.`. -/
def globArcode (name : String) : Bool :=
  !(strStartsWithChar name '.') && hasSub "arcode".data name.data

/-- `existing_paths = glob.glob(os.path.join(run_dir, "*arcode*"))`: the
entries of the run directory matching the glob, joined to the run dir. -/
def existing_paths (runDir : String) (entries : List String) : List String :=
  (entries.filter globArcode).map (fun e => pathJoin runDir e)

/-- Barcode fallback of the row loop: try `run_dir/barcode`, then
`run_dir/barcode.lower()`, else unresolved.  A missing (NaN) barcode makes
`os.path.join` crash in Python (`TypeError`). -/
def resolveBarcode (ex : List String) (runDir : String) :
    Option String → Except PrepError (Option String)
  | none => .error .RuntimeTypeError
  | some b =>
      if containsStr ex (pathJoin runDir b) then .ok (some (pathJoin runDir b))
      else if containsStr ex (pathJoin runDir (strLower b)) then
        .ok (some (pathJoin runDir (strLower b)))
      else .ok none

/-- One row of the loop: keep a present, non-missing `fastq_directory` that
is among the existing paths; otherwise fall back to the barcode. -/
def resolveFd (ex : List String) (runDir : String) (fd : Option String)
    (barcode : Option String) : Except PrepError (Option String) :=
  match fd with
  | some v => if containsStr ex v then .ok (some v) else resolveBarcode ex runDir barcode
  | none => resolveBarcode ex runDir barcode

/-- The `iterrows` loop: each row's `fastq_directory` cell (at `fdIdx` in the
new header) is set to the resolved value; when the column did not pre-exist
(`hadFd = false`) the row is first extended by the new cell. -/
def processRows (ex : List String) (runDir : String) (cols : List String)
    (fdIdx : Nat) (hadFd : Bool) :
    List (List (Option String)) → Except PrepError (List (List (Option String)))
  | [] => .ok []
  | r :: rs =>
      match resolveFd ex runDir (getCell cols r "fastq_directory") (getCell cols r "barcode") with
      | .error e => .error e
      | .ok v =>
          match processRows ex runDir cols fdIdx hadFd rs with
          | .error e => .error e
          | .ok rest => .ok (((if hadFd then r else r ++ [none]).set fdIdx v) :: rest)

/-- `add_fastq_path_to_metadata`: only platform `nanopore` is supported;
resolve every row, then `dropna(subset=['fastq_directory'])`.  When the table
has no rows and no pre-existing `fastq_directory` column, the loop never
creates the column and `dropna` raises `KeyError` (modelled as
`RuntimeTypeError`). -/
def add_fastq_path_to_metadata (t : Table) (entries : List String) (runDir : String)
    (platform : String) : Except PrepError Table :=
  if platform == "nanopore" then
    let ex := existing_paths runDir entries
    if t.rows.isEmpty && !(containsStr t.cols "fastq_directory") then .error .RuntimeTypeError
    else
      let hadFd := containsStr t.cols "fastq_directory"
      let cols1 := if hadFd then t.cols else t.cols ++ ["fastq_directory"]
      match processRows ex runDir t.cols (colIdx "fastq_directory" cols1) hadFd t.rows with
      | .error e => .error e
      | .ok rows1 =>
          .ok { cols := cols1, rows := rows1.filter (fun r => (getCell cols1 r "fastq_directory").isSome) }
  else .error .UnsupportedPlatform

/-!  ## Scheme annotator (`add_amplicon_scheme_to_metadata`)

The regex `^\S*\/\d{3,}\/v\d\.\d\.\d(-\S+)?$` is modelled on `s.data`. -/

/-- Python `\s` on the ASCII range: space, tab, newline, carriage return,
vertical tab, form feed. -/
def isSpaceChar (c : Char) : Bool :=
  c == ' ' || c == '\t' || c == '\n' || c == '\r' || c == Char.ofNat 11 || c == Char.ofNat 12

/-- Python `\d` (ASCII range): a decimal digit. -/
def isDigitChar (c : Char) : Bool := c.isDigit

/-- Matcher for the trailing `(-\S+)?$`: either nothing, or `-` followed by
one or more non-whitespace characters reaching the end. -/
def matchSuffix : List Char → Bool
  | [] => true
  | c :: rest => c == '-' && !rest.isEmpty && rest.all (fun x => !isSpaceChar x)

/-- Matcher for `v\d\.\d\.\d(-\S+)?$`. -/
def matchVer : List Char → Bool
  | v :: a :: d1 :: b :: d2 :: c :: rest =>
      v == 'v' && d1 == '.' && d2 == '.' &&
      isDigitChar a && isDigitChar b && isDigitChar c && matchSuffix rest
  | _ => false

/-- Matcher for `\d{3,}\/v\d\.\d\.\d(-\S+)?$`: a maximal digit run (at least
three digits) followed by `/` and the version part. -/
def matchNum (cs : List Char) : Bool :=
  decide (3 ≤ (cs.takeWhile isDigitChar).length) &&
    (match cs.dropWhile isDigitChar with
     | c :: rest => c == '/' && matchVer rest
     | [] => false)

/-- Matcher for `\S*\/\d{3,}\/v\d\.\d\.\d(-\S+)?$`: try every split of a
non-whitespace name before the `/`. -/
def matchRest : List Char → Bool
  | [] => false
  | c :: rest => (c == '/' && matchNum rest) || (!isSpaceChar c && matchRest rest)

/-- `re.match(r'^\S*\/\d{3,}\/v\d\.\d\.\d(-\S+)?$', s)` succeeds. -/
def matchesScheme (s : String) : Bool := matchRest s.data

/-- Built-in branch of `add_amplicon_scheme_to_metadata`: validate the
format, then attach `scheme_name` to every row. -/
def builtinSchemeMode (t : Table) (amplicon_scheme : String) : Except PrepError Table :=
  if !(matchesScheme amplicon_scheme) then .error .InvalidSchemeFormat
  else .ok (setConstCol t "scheme_name" (some amplicon_scheme))

/-- `add_amplicon_scheme_to_metadata`: custom mode exactly when
`custom_scheme_path not in [None, "", "null"]`; there, fail when the path
does not exist, else attach `custom_scheme_path` then `custom_scheme_name`
to every row.  `fsExists` is the `os.path.exists` oracle. -/
def add_amplicon_scheme_to_metadata (t : Table) (amplicon_scheme : String)
    (custom_scheme_path : Option String) (fsExists : String → Bool) : Except PrepError Table :=
  match custom_scheme_path with
  | some p =>
      if p != "" && p != "null" then
        if !(fsExists p) then .error .CustomSchemePathNotFound
        else .ok (setConstCol (setConstCol t "custom_scheme_path" (some p))
                    "custom_scheme_name" (some amplicon_scheme))
      else builtinSchemeMode t amplicon_scheme
  | none => builtinSchemeMode t amplicon_scheme

/-!  ## Platform annotator and writer  -/

/-- `add_platform_to_metadata`: attach the constant `platform` column. -/
def add_platform_to_metadata (t : Table) (platform : String) : Table :=
  setConstCol t "platform" (some platform)

/-- `save_metadata`: drop rows whose `sample` is missing, then write.
`metadata['sample']` on a table without that column is a `KeyError`. -/
def save_metadata (t : Table) : Except PrepError Table :=
  if containsStr t.cols "sample" then
    .ok { cols := t.cols, rows := t.rows.filter (fun r => (getCell t.cols r "sample").isSome) }
  else .error .RuntimeTypeError

/-- A missing cell is written as the empty field by `to_csv`. -/
def renderCell : Option String → String
  | none => ""
  | some s => s

/-- `to_csv(index=False)` at the level of parsed records: the header row of
column names followed by one record of rendered cells per row; no index
column.  (Field quoting is pandas' concern and is not modelled.) -/
def writeCsv (t : Table) : List (List String) :=
  t.cols :: t.rows.map (fun r => r.map renderCell)

/-- `read_csv` turns an empty field into a missing value. -/
def parseCell (s : String) : Option String :=
  if s == "" then none else some s

/-- The CSV branch of `load_metadata`, at the level of parsed records: first
record is the header, the rest are rows. -/
def loadCsv : List (List String) → Table
  | [] => { cols := [], rows := [] }
  | h :: rest => { cols := h, rows := rest.map (fun l => l.map parseCell) }

/-!  ## `main`  -/

/-- The platform normalization in `main`: lower-case, and alias `ont` to
`nanopore`. -/
def normalizePlatform (p : String) : String :=
  let q := strLower p
  if q == "ont" then "nanopore" else q

/-- The pipeline of `main` after the metadata file has been loaded: check,
resolve paths, attach scheme and platform, save.  Returns the written table
together with the records of `sample_config.csv`. -/
def runPipeline (t : Table) (entries : List String) (runDir : String)
    (platformArg : String) (amplicon_scheme : String) (custom_scheme_path : Option String)
    (fsExists : String → Bool) : Except PrepError (Table × List (List String)) :=
  match check_metadata t with
  | .error e => .error e
  | .ok t1 =>
    match add_fastq_path_to_metadata t1 entries runDir (normalizePlatform platformArg) with
    | .error e => .error e
    | .ok t2 =>
      match add_amplicon_scheme_to_metadata t2 amplicon_scheme custom_scheme_path fsExists with
      | .error e => .error e
      | .ok t3 =>
        match save_metadata
            (add_platform_to_metadata t3 (normalizePlatform platformArg)) with
        | .error e => .error e
        | .ok t5 => .ok (t5, writeCsv t5)

/-!  ## Basic lemmas about the table primitives  -/

theorem getD_set_self {α : Type} (l : List α) (i : Nat) (a d : α) (h : i < l.length) :
    (l.set i a).getD i d = a := by
  induction l generalizing i with
  | nil => simp at h
  | cons x xs ih =>
    cases i with
    | zero => simp [List.getD]
    | succ n => simpa [List.getD] using ih n (by simpa using h)

theorem getD_set_ne {α : Type} (l : List α) (i j : Nat) (a d : α) (h : i ≠ j) :
    (l.set i a).getD j d = l.getD j d := by
  induction l generalizing i j with
  | nil => simp
  | cons x xs ih =>
    cases i with
    | zero =>
      cases j with
      | zero => exact absurd rfl h
      | succ m => simp [List.getD]
    | succ n =>
      cases j with
      | zero => simp [List.getD]
      | succ m => simpa [List.getD] using ih n m (by omega)

theorem getD_append_left {α : Type} (l l2 : List α) (i : Nat) (d : α) (h : i < l.length) :
    (l ++ l2).getD i d = l.getD i d := by
  induction l generalizing i with
  | nil => simp at h
  | cons x xs ih =>
    cases i with
    | zero => simp [List.getD]
    | succ n => simpa [List.getD] using ih n (by simpa using h)

theorem getD_append_length {α : Type} (l : List α) (a d : α) :
    (l ++ [a]).getD l.length d = a := by
  induction l with
  | nil => simp [List.getD]
  | cons x xs ih => simp [List.getD, ih]

theorem getD_of_len_le {α : Type} (l : List α) (i : Nat) (d : α) (h : l.length ≤ i) :
    l.getD i d = d := by
  induction l generalizing i with
  | nil => simp [List.getD]
  | cons x xs ih =>
    cases i with
    | zero => simp at h
    | succ n => simpa [List.getD] using ih n (by simpa using h)

theorem length_set_eq {α : Type} (l : List α) (i : Nat) (a : α) :
    (l.set i a).length = l.length := by
  simp

theorem containsStr_iff (l : List String) (c : String) : containsStr l c = true ↔ c ∈ l := by
  simp [containsStr, List.any_eq_true, beq_iff_eq]

theorem colIdx_lt_length {l : List String} {c : String} (h : c ∈ l) : colIdx c l < l.length := by
  induction l with
  | nil => simp at h
  | cons x xs ih =>
    by_cases hx : x = c
    · simp [colIdx, hx]
    · have hm : c ∈ xs := by
        rcases List.mem_cons.mp h with h1 | h1
        · exact absurd h1.symm hx
        · exact h1
      have := ih hm
      simp only [colIdx, beq_iff_eq, hx, if_false, List.length_cons]
      omega

theorem colIdx_of_not_mem {l : List String} {c : String} (h : c ∉ l) : colIdx c l = l.length := by
  induction l with
  | nil => rfl
  | cons x xs ih =>
    have hx : ¬(x = c) := fun he => h (he ▸ List.mem_cons_self x xs)
    have hm : c ∉ xs := fun hc => h (List.mem_cons_of_mem x hc)
    simp [colIdx, hx, ih hm]

theorem getD_colIdx {l : List String} {c : String} (d : String) (h : c ∈ l) :
    l.getD (colIdx c l) d = c := by
  induction l with
  | nil => simp at h
  | cons x xs ih =>
    by_cases hx : x = c
    · simp [colIdx, hx, List.getD]
    · have hm : c ∈ xs := by
        rcases List.mem_cons.mp h with h1 | h1
        · exact absurd h1.symm hx
        · exact h1
      have h2 := ih hm
      simp only [colIdx, beq_iff_eq, hx, if_false]
      simpa [List.getD] using h2

theorem colIdx_ne_of_ne {l : List String} {c c' : String} (h1 : c ∈ l) (h2 : c' ∈ l)
    (hne : c ≠ c') : colIdx c l ≠ colIdx c' l := by
  intro he
  have e1 := getD_colIdx "" h1
  have e2 := getD_colIdx "" h2
  rw [he] at e1
  exact hne (e1.symm.trans e2)

theorem colIdx_append_left {l : List String} {c : String} (l2 : List String) (h : c ∈ l) :
    colIdx c (l ++ l2) = colIdx c l := by
  induction l with
  | nil => simp at h
  | cons x xs ih =>
    by_cases hx : x = c
    · simp [colIdx, hx]
    · have hm : c ∈ xs := by
        rcases List.mem_cons.mp h with h1 | h1
        · exact absurd h1.symm hx
        · exact h1
      simp [colIdx, hx, ih hm]

theorem colIdx_append_not_mem {l : List String} {c : String} (l2 : List String) (h : c ∉ l) :
    colIdx c (l ++ l2) = l.length + colIdx c l2 := by
  induction l with
  | nil => simp
  | cons x xs ih =>
    have hx : ¬(x = c) := fun he => h (he ▸ List.mem_cons_self x xs)
    have hm : c ∉ xs := fun hc => h (List.mem_cons_of_mem x hc)
    have h2 := ih hm
    simp only [List.append_eq] at h2
    simp only [List.cons_append, colIdx, beq_iff_eq, hx, if_false, List.length_cons,
      List.append_eq]
    omega

theorem countStr_one_mem {l : List String} {c : String} (h : countStr c l = 1) : c ∈ l := by
  induction l with
  | nil => simp [countStr] at h
  | cons x xs ih =>
    by_cases hx : x = c
    · exact hx ▸ List.mem_cons_self x xs
    · refine List.mem_cons_of_mem x (ih ?_)
      simpa [countStr, hx] using h

theorem dedup_length_iff_nodup {α : Type} [DecidableEq α] (l : List α) :
    l.dedup.length = l.length ↔ l.Nodup := by
  constructor
  · intro h
    have he : l.dedup = l := (List.dedup_sublist l).eq_of_length h
    exact he ▸ List.nodup_dedup l
  · intro h
    rw [List.dedup_eq_self.mpr h]

/-!  ## The scheme-format regex, characterized  -/

/-- All characters are non-whitespace (`\S*`). -/
def NoSpace (l : List Char) : Prop := ∀ c ∈ l, isSpaceChar c = false

/-- All characters are decimal digits. -/
def AllDigits (l : List Char) : Prop := ∀ c ∈ l, isDigitChar c = true

/-- The optional suffix `(-\S+)?` at end of string: empty, or `-` followed
by at least one non-whitespace character. -/
def SuffixOk (suf : List Char) : Prop :=
  suf = [] ∨ ∃ t, suf = '-' :: t ∧ t ≠ [] ∧ NoSpace t

theorem isEmpty_false_iff (l : List Char) : l.isEmpty = false ↔ l ≠ [] := by
  cases l <;> simp

theorem matchSuffix_iff (suf : List Char) : matchSuffix suf = true ↔ SuffixOk suf := by
  cases suf with
  | nil => simp [matchSuffix, SuffixOk]
  | cons c rest =>
    constructor
    · intro h
      simp only [matchSuffix, Bool.and_eq_true, beq_iff_eq, Bool.not_eq_true',
        isEmpty_false_iff, List.all_eq_true] at h
      obtain ⟨⟨rfl, h1⟩, h2⟩ := h
      refine Or.inr ⟨rest, rfl, h1, fun x hx => ?_⟩
      have := h2 x hx
      simpa using this
    · rintro (h | ⟨t, ht, h1, h2⟩)
      · exact absurd h (List.cons_ne_nil c rest)
      · injection ht with hc hrest
        subst hc; subst hrest
        simp only [matchSuffix]
        simp [isEmpty_false_iff, h1]
        exact h2

theorem matchVer_iff (cs : List Char) :
    matchVer cs = true ↔ ∃ a b c suf, cs = 'v' :: a :: '.' :: b :: '.' :: c :: suf ∧
      isDigitChar a = true ∧ isDigitChar b = true ∧ isDigitChar c = true ∧ SuffixOk suf := by
  constructor
  · intro h
    rcases cs with _ | ⟨v, _ | ⟨a, _ | ⟨d1, _ | ⟨b, _ | ⟨d2, _ | ⟨c, rest⟩⟩⟩⟩⟩⟩
    · exact Bool.noConfusion h
    · exact Bool.noConfusion h
    · exact Bool.noConfusion h
    · exact Bool.noConfusion h
    · exact Bool.noConfusion h
    · exact Bool.noConfusion h
    · have h' : (v == 'v' && d1 == '.' && d2 == '.' &&
          isDigitChar a && isDigitChar b && isDigitChar c && matchSuffix rest) = true := h
      simp only [Bool.and_eq_true, beq_iff_eq] at h'
      obtain ⟨⟨⟨⟨⟨⟨rfl, rfl⟩, rfl⟩, ha⟩, hb⟩, hc⟩, hsuf⟩ := h'
      exact ⟨a, b, c, rest, rfl, ha, hb, hc, (matchSuffix_iff rest).mp hsuf⟩
  · rintro ⟨a, b, c, suf, rfl, ha, hb, hc, hsuf⟩
    show (('v' : Char) == 'v' && ('.' : Char) == '.' && ('.' : Char) == '.' &&
        isDigitChar a && isDigitChar b && isDigitChar c && matchSuffix suf) = true
    simp [ha, hb, hc, (matchSuffix_iff suf).mpr hsuf]

theorem takeWhile_append_all {p : Char → Bool} {l : List Char} (r : List Char) {c : Char}
    (hl : ∀ x ∈ l, p x = true) (hc : p c = false) : (l ++ c :: r).takeWhile p = l := by
  induction l with
  | nil => simp [List.takeWhile_cons, hc]
  | cons x xs ih =>
    have hx : p x = true := hl x (List.mem_cons_self x xs)
    simp only [List.cons_append, List.takeWhile_cons, hx]
    simp [ih (fun y hy => hl y (List.mem_cons_of_mem x hy))]

theorem dropWhile_append_all {p : Char → Bool} {l : List Char} (r : List Char) {c : Char}
    (hl : ∀ x ∈ l, p x = true) (hc : p c = false) : (l ++ c :: r).dropWhile p = c :: r := by
  induction l with
  | nil => simp [List.dropWhile_cons, hc]
  | cons x xs ih =>
    have hx : p x = true := hl x (List.mem_cons_self x xs)
    simp only [List.cons_append, List.dropWhile_cons, hx]
    simpa using ih (fun y hy => hl y (List.mem_cons_of_mem x hy))

theorem matchNum_iff (cs : List Char) :
    matchNum cs = true ↔ ∃ num rest, cs = num ++ '/' :: rest ∧ AllDigits num ∧
      3 ≤ num.length ∧ matchVer rest = true := by
  constructor
  · intro h
    simp only [matchNum, Bool.and_eq_true, decide_eq_true_eq] at h
    obtain ⟨hlen, hmatch⟩ := h
    cases hd : cs.dropWhile isDigitChar with
    | nil => rw [hd] at hmatch; simp at hmatch
    | cons c rest =>
      rw [hd] at hmatch
      simp only [Bool.and_eq_true, beq_iff_eq] at hmatch
      obtain ⟨rfl, hver⟩ := hmatch
      have hcs : cs = cs.takeWhile isDigitChar ++ '/' :: rest := by
        conv_lhs => rw [← List.takeWhile_append_dropWhile isDigitChar cs]
        rw [hd]
      exact ⟨cs.takeWhile isDigitChar, rest, hcs,
        fun x hx => List.mem_takeWhile_imp hx, hlen, hver⟩
  · rintro ⟨num, rest, rfl, hall, hlen, hver⟩
    have hslash : isDigitChar '/' = false := rfl
    have ht := takeWhile_append_all (p := isDigitChar) rest hall hslash
    have hdr := dropWhile_append_all (p := isDigitChar) rest hall hslash
    simp [matchNum, ht, hdr, hlen, hver]

theorem matchRest_iff (cs : List Char) :
    matchRest cs = true ↔ ∃ name rest, cs = name ++ '/' :: rest ∧ NoSpace name ∧
      matchNum rest = true := by
  induction cs with
  | nil =>
    constructor
    · intro h; exact Bool.noConfusion h
    · rintro ⟨name, rest, he, -, -⟩
      rcases name with _ | ⟨x, xs⟩
      · exact List.noConfusion he
      · exact List.noConfusion he
  | cons c cs ih =>
    simp only [matchRest, Bool.or_eq_true, Bool.and_eq_true, beq_iff_eq, Bool.not_eq_true']
    constructor
    · rintro (⟨rfl, hnum⟩ | ⟨hsp, hrest⟩)
      · exact ⟨[], cs, rfl, by simp [NoSpace], hnum⟩
      · obtain ⟨name, rest, rfl, hns, hnum⟩ := ih.mp hrest
        refine ⟨c :: name, rest, rfl, ?_, hnum⟩
        intro x hx
        rcases List.mem_cons.mp hx with rfl | hx
        · exact hsp
        · exact hns x hx
    · rintro ⟨name, rest, he, hns, hnum⟩
      cases name with
      | nil =>
        simp only [List.nil_append] at he
        injection he with h1 h2
        subst h1; subst h2
        exact Or.inl ⟨rfl, hnum⟩
      | cons n0 name' =>
        simp only [List.cons_append] at he
        injection he with h1 h2
        subst h1; subst h2
        refine Or.inr ⟨hns c (List.mem_cons_self c name'), ?_⟩
        exact ih.mpr ⟨name', rest, rfl, fun x hx => hns x (List.mem_cons_of_mem c hx), hnum⟩

/-- The language of the code's regex `^\S*\/\d{3,}\/v\d\.\d\.\d(-\S+)?$`:
a non-whitespace (possibly empty) name, `/`, a number of at least three
digits, `/v`, three version components of ONE digit each separated by dots,
and an optional non-whitespace suffix after a dash. -/
def SchemePatternSingleDigit (s : String) : Prop :=
  ∃ name num a b c suf,
    s.data = name ++ '/' :: (num ++ '/' :: 'v' :: a :: '.' :: b :: '.' :: c :: suf) ∧
    NoSpace name ∧ AllDigits num ∧ 3 ≤ num.length ∧
    isDigitChar a = true ∧ isDigitChar b = true ∧ isDigitChar c = true ∧ SuffixOk suf

/-- Modelled from the claim's wording of the pattern,
`<name>/<3+ digit number>/v<major>.<minor>.<patch>[-<suffix>]`, reading each
version component as a number (one or more digits). -/
def SchemePatternClaim (s : String) : Prop :=
  ∃ name num maj minr pat suf,
    s.data = name ++ '/' :: (num ++ '/' :: 'v' :: (maj ++ '.' :: (minr ++ '.' :: (pat ++ suf)))) ∧
    NoSpace name ∧ AllDigits num ∧ 3 ≤ num.length ∧
    AllDigits maj ∧ maj ≠ [] ∧ AllDigits minr ∧ minr ≠ [] ∧ AllDigits pat ∧ pat ≠ [] ∧
    SuffixOk suf

theorem matchesScheme_iff (s : String) :
    matchesScheme s = true ↔ SchemePatternSingleDigit s := by
  unfold matchesScheme SchemePatternSingleDigit
  rw [matchRest_iff]
  constructor
  · rintro ⟨name, rest, he, hns, hnum⟩
    obtain ⟨num, rest2, rfl, hdig, hlen, hver⟩ := (matchNum_iff rest).mp hnum
    obtain ⟨a, b, c, suf, rfl, ha, hb, hc, hsuf⟩ := (matchVer_iff rest2).mp hver
    exact ⟨name, num, a, b, c, suf, he, hns, hdig, hlen, ha, hb, hc, hsuf⟩
  · rintro ⟨name, num, a, b, c, suf, he, hns, hdig, hlen, ha, hb, hc, hsuf⟩
    refine ⟨name, num ++ '/' :: 'v' :: a :: '.' :: b :: '.' :: c :: suf, he, hns, ?_⟩
    exact (matchNum_iff _).mpr ⟨num, _, rfl, hdig, hlen,
      (matchVer_iff _).mpr ⟨a, b, c, suf, rfl, ha, hb, hc, hsuf⟩⟩

/-!  ## Lemmas about `setConstCol`  -/

theorem wfTable_iff (t : Table) : wfTable t = true ↔ ∀ r ∈ t.rows, r.length = t.cols.length := by
  simp [wfTable, List.all_eq_true]

theorem setConstCol_cols (t : Table) (c : String) (v : Option String) :
    (setConstCol t c v).cols = if containsStr t.cols c then t.cols else t.cols ++ [c] := by
  by_cases h : containsStr t.cols c = true
  · simp [setConstCol, h]
  · simp only [Bool.not_eq_true] at h
    simp [setConstCol, h]

theorem setConstCol_wf (t : Table) (c : String) (v : Option String) (hwf : wfTable t = true) :
    wfTable (setConstCol t c v) = true := by
  rw [wfTable_iff] at hwf ⊢
  by_cases h : containsStr t.cols c = true
  · simp only [setConstCol, h, if_true]
    intro r hr
    obtain ⟨r0, hr0, rfl⟩ := List.mem_map.mp hr
    simp [hwf r0 hr0]
  · simp only [Bool.not_eq_true] at h
    simp only [setConstCol, h, Bool.false_eq_true, if_false]
    intro r hr
    obtain ⟨r0, hr0, rfl⟩ := List.mem_map.mp hr
    simp [hwf r0 hr0]

theorem getCell_setConstCol_self (t : Table) (c : String) (v : Option String)
    (hwf : wfTable t = true) :
    ∀ r ∈ (setConstCol t c v).rows, getCell (setConstCol t c v).cols r c = v := by
  rw [wfTable_iff] at hwf
  intro r hr
  by_cases h : containsStr t.cols c = true
  · simp only [setConstCol, h, if_true] at hr ⊢
    obtain ⟨r0, hr0, rfl⟩ := List.mem_map.mp hr
    have hmem : c ∈ t.cols := (containsStr_iff t.cols c).mp h
    have hlt : colIdx c t.cols < r0.length := by
      rw [hwf r0 hr0]; exact colIdx_lt_length hmem
    exact getD_set_self r0 (colIdx c t.cols) v none hlt
  · simp only [Bool.not_eq_true] at h
    simp only [setConstCol, h, Bool.false_eq_true, if_false] at hr ⊢
    obtain ⟨r0, hr0, rfl⟩ := List.mem_map.mp hr
    have hnm : c ∉ t.cols := fun hc => by simp [(containsStr_iff t.cols c).mpr hc] at h
    have hidx : colIdx c (t.cols ++ [c]) = t.cols.length := by
      rw [colIdx_append_not_mem [c] hnm]
      simp [colIdx]
    rw [getCell, hidx, ← hwf r0 hr0]
    exact getD_append_length r0 v none

theorem getCell_setConstCol_ne (t : Table) (c : String) (v : Option String) (c' : String)
    (hne : c' ≠ c) (hmem : c' ∈ t.cols) (hwf : wfTable t = true) (r : List (Option String))
    (hr : r ∈ t.rows) :
    getCell (setConstCol t c v).cols
      ((if containsStr t.cols c then fun r0 => r0.set (colIdx c t.cols) v
        else fun r0 => r0 ++ [v]) r) c' = getCell t.cols r c' := by
  rw [wfTable_iff] at hwf
  by_cases h : containsStr t.cols c = true
  · simp only [setConstCol, h, if_true]
    have hcm : c ∈ t.cols := (containsStr_iff t.cols c).mp h
    have hij : colIdx c t.cols ≠ colIdx c' t.cols := colIdx_ne_of_ne hcm hmem hne.symm
    exact getD_set_ne r (colIdx c t.cols) (colIdx c' t.cols) v none hij
  · simp only [Bool.not_eq_true] at h
    simp only [setConstCol, h, Bool.false_eq_true, if_false]
    have hidx : colIdx c' (t.cols ++ [c]) = colIdx c' t.cols := colIdx_append_left [c] hmem
    rw [getCell, hidx]
    have hlt : colIdx c' t.cols < r.length := by
      rw [hwf r hr]; exact colIdx_lt_length hmem
    exact getD_append_left r [v] (colIdx c' t.cols) none hlt

theorem setConstCol_rows (t : Table) (c : String) (v : Option String) :
    (setConstCol t c v).rows =
      t.rows.map (if containsStr t.cols c then fun r0 => r0.set (colIdx c t.cols) v
        else fun r0 => r0 ++ [v]) := by
  by_cases h : containsStr t.cols c = true
  · simp [setConstCol, h]
  · simp only [Bool.not_eq_true] at h
    simp [setConstCol, h]

theorem colValues_setConstCol_ne (t : Table) (c : String) (v : Option String) (c' : String)
    (hne : c' ≠ c) (hmem : c' ∈ t.cols) (hwf : wfTable t = true) :
    colValues (setConstCol t c v) c' = colValues t c' := by
  unfold colValues
  rw [setConstCol_rows, List.map_map]
  refine List.map_congr_left ?_
  intro r hr
  exact getCell_setConstCol_ne t c v c' hne hmem hwf r hr

/-!  ## Unfolding lemmas for the scheme annotator  -/

theorem add_amplicon_builtin (t : Table) (a : String) (fs : String → Bool)
    (cp : Option String) (hcp : cp = none ∨ cp = some "" ∨ cp = some "null") :
    add_amplicon_scheme_to_metadata t a cp fs = builtinSchemeMode t a := by
  rcases hcp with rfl | rfl | rfl
  · rfl
  · rfl
  · rfl

theorem add_amplicon_custom (t : Table) (a : String) (fs : String → Bool) (p : String)
    (h1 : p ≠ "") (h2 : p ≠ "null") :
    add_amplicon_scheme_to_metadata t a (some p) fs =
      (if fs p = false then .error .CustomSchemePathNotFound
       else .ok (setConstCol (setConstCol t "custom_scheme_path" (some p))
                  "custom_scheme_name" (some a))) := by
  have hb1 : (p != "") = true := by simp [bne_iff_ne, h1]
  have hb2 : (p != "null") = true := by simp [bne_iff_ne, h2]
  simp only [add_amplicon_scheme_to_metadata, hb1, hb2, Bool.and_self, if_true]
  by_cases hf : fs p = true
  · simp [hf]
  · simp only [Bool.not_eq_true] at hf
    simp [hf]

theorem builtinSchemeMode_ok (t : Table) (a : String) (hm : matchesScheme a = true) :
    builtinSchemeMode t a = .ok (setConstCol t "scheme_name" (some a)) := by
  simp [builtinSchemeMode, hm]

theorem builtinSchemeMode_error (t : Table) (a : String) (hm : matchesScheme a = false) :
    builtinSchemeMode t a = .error .InvalidSchemeFormat := by
  simp [builtinSchemeMode, hm]

/-!  ## Claim C1  -/

/-- C1 counterexample: the claim's general pattern reads the version as
`v<major>.<minor>.<patch>`; `artic-inrb-mpox/2500/v1.0.10` matches that
pattern (patch = 10), yet the code's regex rejects it, because the regex
`v\d\.\d\.\d` allows exactly one digit per component. -/
theorem C1_scheme_format_counterexample :
    matchesScheme "artic-inrb-mpox/2500/v1.0.10" = false ∧
    SchemePatternClaim "artic-inrb-mpox/2500/v1.0.10" := by
  constructor
  · decide
  · refine ⟨"artic-inrb-mpox".data, "2500".data, ['1'], ['0'], ['1', '0'], [],
      by decide, ?_, ?_, by decide, ?_, by decide, ?_, by decide, ?_, by decide, Or.inl rfl⟩
    all_goals first
      | (unfold NoSpace; decide)
      | (unfold AllDigits; decide)

/-- C1 (amended): in built-in mode the scheme string
`artic-inrb-mpox/2500/v1.0.0` passes format validation and `scheme_name` is
set to it on every row, while `artic-inrb-mpox/25/v1.0.0` and
`artic-inrb-mpox/2500/1.0.0` fail with `InvalidSchemeFormat`; in general a
scheme string is accepted exactly when it matches
`<name>/<3+ digit number>/v<d>.<d>.<d>[-<suffix>]` where each version
component is a SINGLE digit (not an arbitrary number). -/
theorem C1_scheme_format (t : Table) (fs : String → Bool) :
    matchesScheme "artic-inrb-mpox/2500/v1.0.0" = true ∧
    add_amplicon_scheme_to_metadata t "artic-inrb-mpox/25/v1.0.0" none fs =
      .error .InvalidSchemeFormat ∧
    add_amplicon_scheme_to_metadata t "artic-inrb-mpox/2500/1.0.0" none fs =
      .error .InvalidSchemeFormat ∧
    (wfTable t = true →
      ∀ t', add_amplicon_scheme_to_metadata t "artic-inrb-mpox/2500/v1.0.0" none fs = .ok t' →
        ∀ r ∈ t'.rows,
          getCell t'.cols r "scheme_name" = some "artic-inrb-mpox/2500/v1.0.0") ∧
    (∀ s, matchesScheme s = true ↔ SchemePatternSingleDigit s) := by
  refine ⟨by decide, ?_, ?_, ?_, matchesScheme_iff⟩
  · exact (add_amplicon_builtin t _ fs none (Or.inl rfl)).trans
      (builtinSchemeMode_error t _ (by decide))
  · exact (add_amplicon_builtin t _ fs none (Or.inl rfl)).trans
      (builtinSchemeMode_error t _ (by decide))
  · intro hwf t' hok
    rw [add_amplicon_builtin t _ fs none (Or.inl rfl),
      builtinSchemeMode_ok t _ (by decide)] at hok
    have ht' : t' = setConstCol t "scheme_name" (some "artic-inrb-mpox/2500/v1.0.0") := by
      injection hok with h
      exact h.symm
    subst ht'
    exact getCell_setConstCol_self t _ _ hwf

/-- C1 witness: the amended theorem applied at a concrete one-row table. -/
theorem C1_scheme_format_witness :
    getCell ["sample", "scheme_name"] [some "s1", some "artic-inrb-mpox/2500/v1.0.0"]
      "scheme_name" = some "artic-inrb-mpox/2500/v1.0.0" :=
  (C1_scheme_format ⟨["sample"], [[some "s1"]]⟩ (fun _ => false)).2.2.2.1 (by decide)
    ⟨["sample", "scheme_name"], [[some "s1", some "artic-inrb-mpox/2500/v1.0.0"]]⟩ (by decide)
    [some "s1", some "artic-inrb-mpox/2500/v1.0.0"] (by decide)

/-!  ## Lemmas about the schema checker  -/

theorem matchesRequired_disjoint (m : String) :
    ¬(matchesRequired "sample" m = true ∧ matchesRequired "barcode" m = true) := by
  rintro ⟨h1, h2⟩
  simp only [matchesRequired, Bool.or_eq_true, beq_iff_eq] at h1 h2
  rcases h1 with (h1 | h1) | h1 <;> rcases h2 with (h2 | h2) | h2 <;>
    exact absurd (h1.symm.trans h2) (by decide)

theorem keyDict_eq (cols : List String) :
    keyDict cols =
      (match cols.find? (fun mc => matchesRequired "sample" mc) with
        | some ms => [(ms, "sample")]
        | none => []) ++
      (match cols.find? (fun mc => matchesRequired "barcode" mc) with
        | some mb => [(mb, "barcode")]
        | none => []) := by
  unfold keyDict requiredColumns
  simp only [List.foldl]
  cases hs : cols.find? (fun mc => matchesRequired "sample" mc) with
  | none =>
    cases hb : cols.find? (fun mc => matchesRequired "barcode" mc) with
    | none => simp
    | some mb => simp [dictInsert]
  | some ms =>
    cases hb : cols.find? (fun mc => matchesRequired "barcode" mc) with
    | none => simp [dictInsert]
    | some mb =>
      have hms : matchesRequired "sample" ms = true := List.find?_some hs
      have hmb : matchesRequired "barcode" mb = true := List.find?_some hb
      have hne : ms ≠ mb := fun he => matchesRequired_disjoint mb ⟨he ▸ hms, hmb⟩
      simp [dictInsert, hne]

theorem check_metadata_missing (t : Table)
    (h : (keyDict t.cols).length ≠ requiredColumns.length) :
    check_metadata t = .error .MissingColumns := by
  have hb : ((keyDict t.cols).length != requiredColumns.length) = true := by
    simpa [bne_iff_ne] using h
  simp [check_metadata, hb]

theorem getD_map {α β : Type} (l : List α) (f : α → β) (i : Nat) (d : β) (e : α)
    (h : i < l.length) : (l.map f).getD i d = f (l.getD i e) := by
  induction l generalizing i with
  | nil => simp at h
  | cons x xs ih =>
    cases i with
    | zero => simp [List.getD]
    | succ n => simpa [List.getD] using ih n (by simpa using h)

theorem find?_first {α : Type} (p : α → Bool) (pre : List α) (m : α) (post : List α)
    (hpre : ∀ x ∈ pre, p x = false) (hm : p m = true) :
    (pre ++ m :: post).find? p = some m := by
  induction pre with
  | nil => simp [List.find?_cons, hm]
  | cons x xs ih =>
    have hx : p x = false := hpre x (List.mem_cons_self x xs)
    simp only [List.cons_append, List.find?_cons, hx]
    exact ih (fun y hy => hpre y (List.mem_cons_of_mem x hy))

theorem keyDict_find_sample (cols : List String) (m : String)
    (hs : cols.find? (fun mc => matchesRequired "sample" mc) = some m) :
    (keyDict cols).find? (fun p => p.1 == m) = some (m, "sample") := by
  rw [keyDict_eq, hs]
  simp [List.find?_cons]

theorem keyDict_find_barcode (cols : List String) (m : String)
    (hb : cols.find? (fun mc => matchesRequired "barcode" mc) = some m) :
    (keyDict cols).find? (fun p => p.1 == m) = some (m, "barcode") := by
  rw [keyDict_eq, hb]
  cases hs : cols.find? (fun mc => matchesRequired "sample" mc) with
  | none => simp [List.find?_cons]
  | some ms =>
    have hms : matchesRequired "sample" ms = true := List.find?_some hs
    have hmb : matchesRequired "barcode" m = true := List.find?_some hb
    have hne : ms ≠ m := fun he => matchesRequired_disjoint m ⟨he ▸ hms, hmb⟩
    simp [List.find?_cons, hne]

theorem renameCols_getD (cols : List String) (c m : String) (i : Nat) (d : String)
    (hi : i < cols.length) (hcol : cols.getD i d = m)
    (hfind : (keyDict cols).find? (fun p => p.1 == m) = some (m, c)) :
    (renameCols cols).getD i d = c := by
  unfold renameCols
  rw [getD_map cols _ i d d hi, hcol, hfind]

/-!  ## Claim C3  -/

/-- C3: a required canonical column name matches an input column exactly when
the lower-cased input name is the canonical name, its plural, or its `_name`
form; the first matching input column is recorded and renamed (in place) to
the canonical name; a table in which some required name has no matching
column fails with `MissingColumns`; `Samples`, `SAMPLE_NAME`, `barcode` all
resolve. -/
theorem C3_column_matching :
    (∀ col mcol, matchesRequired col mcol = true ↔
      (strLower mcol = col ∨ strLower mcol = col ++ "s" ∨ strLower mcol = col ++ "_name")) ∧
    (∀ (cols : List String) (c : String) (pre : List String) (m : String) (post : List String),
      cols = pre ++ m :: post → (∀ x ∈ pre, matchesRequired c x = false) →
      matchesRequired c m = true →
      cols.find? (fun mc => matchesRequired c mc) = some m) ∧
    (∀ (cols : List String) (c m : String) (i : Nat) (d : String),
      c ∈ requiredColumns → cols.find? (fun mc => matchesRequired c mc) = some m →
      i < cols.length → cols.getD i d = m → (renameCols cols).getD i d = c) ∧
    (∀ t : Table, (∃ c ∈ requiredColumns, ∀ mc ∈ t.cols, matchesRequired c mc = false) →
      check_metadata t = .error .MissingColumns) ∧
    renameCols ["Samples", "barcode"] = ["sample", "barcode"] ∧
    renameCols ["SAMPLE_NAME", "Barcodes"] = ["sample", "barcode"] ∧
    check_metadata ⟨["Samples", "BARCODE", "extra"], [[some "s1", some "b1", some "x"]]⟩ =
      .ok ⟨["sample", "barcode", "extra"], [[some "s1", some "b1", some "x"]]⟩ := by
  refine ⟨?_, ?_, ?_, ?_, by decide, by decide, by decide⟩
  · intro col mcol
    simp [matchesRequired, or_assoc]
  · intro cols c pre m post heq hpre hm
    subst heq
    exact find?_first _ pre m post hpre hm
  · intro cols c m i d hc hfind hi hcol
    have hc2 : c = "sample" ∨ c = "barcode" := by simpa [requiredColumns] using hc
    rcases hc2 with rfl | rfl
    · exact renameCols_getD cols "sample" m i d hi hcol (keyDict_find_sample cols m hfind)
    · exact renameCols_getD cols "barcode" m i d hi hcol (keyDict_find_barcode cols m hfind)
  · rintro t ⟨c, hc, hnone⟩
    have hfind : t.cols.find? (fun mc => matchesRequired c mc) = none :=
      List.find?_eq_none.mpr (fun x hx => by simp [hnone x hx])
    have hc2 : c = "sample" ∨ c = "barcode" := by simpa [requiredColumns] using hc
    have hlen : (keyDict t.cols).length ≤ 1 := by
      rw [keyDict_eq]
      rcases hc2 with rfl | rfl
      · rw [hfind]
        cases t.cols.find? (fun mc => matchesRequired "barcode" mc) <;> simp
      · rw [hfind]
        cases t.cols.find? (fun mc => matchesRequired "sample" mc) <;> simp
    refine check_metadata_missing t ?_
    have : requiredColumns.length = 2 := rfl
    omega

/-- C3 witness: a table whose only column matches `sample` but nothing
matches `barcode` fails with `MissingColumns`. -/
theorem C3_column_matching_witness :
    check_metadata ⟨["Samples"], [[some "s1"]]⟩ = .error .MissingColumns :=
  C3_column_matching.2.2.2.1 ⟨["Samples"], [[some "s1"]]⟩
    ⟨"barcode", by decide, by decide⟩

/-!  ## Claim C4  -/

/-- C4: for a table passing the required-column match (and with a uniquely
named `barcode` / `sample` column after renaming), a repeated barcode value
fails with `DuplicateBarcode`; with unique barcodes a repeated sample value
fails with `DuplicateSample`; only when both checks pass are the rows with
missing sample dropped — in particular two rows with missing samples (which
would later be dropped) still abort with `DuplicateSample`. -/
theorem C4_duplicate_checks :
    (∀ t : Table, (keyDict t.cols).length = requiredColumns.length →
      countStr "barcode" (renameCols t.cols) = 1 →
      ¬(colValues ⟨renameCols t.cols, t.rows⟩ "barcode").Nodup →
      check_metadata t = .error .DuplicateBarcode) ∧
    (∀ t : Table, (keyDict t.cols).length = requiredColumns.length →
      countStr "barcode" (renameCols t.cols) = 1 →
      (colValues ⟨renameCols t.cols, t.rows⟩ "barcode").Nodup →
      countStr "sample" (renameCols t.cols) = 1 →
      ¬(colValues ⟨renameCols t.cols, t.rows⟩ "sample").Nodup →
      check_metadata t = .error .DuplicateSample) ∧
    (∀ t : Table, (keyDict t.cols).length = requiredColumns.length →
      countStr "barcode" (renameCols t.cols) = 1 →
      (colValues ⟨renameCols t.cols, t.rows⟩ "barcode").Nodup →
      countStr "sample" (renameCols t.cols) = 1 →
      (colValues ⟨renameCols t.cols, t.rows⟩ "sample").Nodup →
      check_metadata t = .ok ⟨renameCols t.cols,
        t.rows.filter (fun r => (getCell (renameCols t.cols) r "sample").isSome)⟩) ∧
    check_metadata ⟨["sample", "barcode"], [[none, some "b1"], [none, some "b2"]]⟩ =
      .error .DuplicateSample := by
  refine ⟨?_, ?_, ?_, by decide⟩
  · intro t h1 h2 hnd
    have hne : (colValues ⟨renameCols t.cols, t.rows⟩ "barcode").dedup.length ≠
        (colValues ⟨renameCols t.cols, t.rows⟩ "barcode").length :=
      fun he => hnd ((dedup_length_iff_nodup _).mp he)
    have hb3 : ((colValues ⟨renameCols t.cols, t.rows⟩ "barcode").dedup.length !=
        (colValues ⟨renameCols t.cols, t.rows⟩ "barcode").length) = true := by
      simpa [bne_iff_ne] using hne
    simp [check_metadata, h1, h2, hb3]
  · intro t h1 h2 hbd h3 hnd
    have hbeq : (colValues ⟨renameCols t.cols, t.rows⟩ "barcode").dedup.length =
        (colValues ⟨renameCols t.cols, t.rows⟩ "barcode").length :=
      (dedup_length_iff_nodup _).mpr hbd
    have hne : (colValues ⟨renameCols t.cols, t.rows⟩ "sample").dedup.length ≠
        (colValues ⟨renameCols t.cols, t.rows⟩ "sample").length :=
      fun he => hnd ((dedup_length_iff_nodup _).mp he)
    have hb4 : ((colValues ⟨renameCols t.cols, t.rows⟩ "sample").dedup.length !=
        (colValues ⟨renameCols t.cols, t.rows⟩ "sample").length) = true := by
      simpa [bne_iff_ne] using hne
    simp [check_metadata, h1, h2, hbeq, h3, hb4]
  · intro t h1 h2 hbd h3 hsd
    have hbeq : (colValues ⟨renameCols t.cols, t.rows⟩ "barcode").dedup.length =
        (colValues ⟨renameCols t.cols, t.rows⟩ "barcode").length :=
      (dedup_length_iff_nodup _).mpr hbd
    have hseq : (colValues ⟨renameCols t.cols, t.rows⟩ "sample").dedup.length =
        (colValues ⟨renameCols t.cols, t.rows⟩ "sample").length :=
      (dedup_length_iff_nodup _).mpr hsd
    simp [check_metadata, h1, h2, hbeq, h3, hseq]

/-- C4 witness: a concrete duplicated barcode aborts with
`DuplicateBarcode`. -/
theorem C4_duplicate_checks_witness :
    check_metadata ⟨["sample", "barcode"], [[some "s1", some "b"], [some "s2", some "b"]]⟩ =
      .error .DuplicateBarcode :=
  C4_duplicate_checks.1 ⟨["sample", "barcode"], [[some "s1", some "b"], [some "s2", some "b"]]⟩
    (by decide) (by decide) (by decide)

/-!  ## Claim C5  -/

theorem setConstCol_mem_self (t : Table) (c : String) (v : Option String) :
    c ∈ (setConstCol t c v).cols := by
  rw [setConstCol_cols]
  by_cases h : containsStr t.cols c = true
  · simpa [h] using (containsStr_iff t.cols c).mp h
  · simp only [Bool.not_eq_true] at h
    simp [h]

theorem setConstCol_mem_mono (t : Table) (c : String) (v : Option String) (c' : String)
    (h : c' ∈ t.cols) : c' ∈ (setConstCol t c v).cols := by
  rw [setConstCol_cols]
  by_cases hc : containsStr t.cols c = true
  · simpa [hc] using h
  · simp only [Bool.not_eq_true] at hc
    simp [hc, List.mem_append, h]

theorem getCell_setConstCol_pres (t : Table) (c : String) (v : Option String) (c' : String)
    (hne : c' ≠ c) (hmem : c' ∈ t.cols) (hwf : wfTable t = true) (w : Option String)
    (hval : ∀ r ∈ t.rows, getCell t.cols r c' = w) :
    ∀ r' ∈ (setConstCol t c v).rows, getCell (setConstCol t c v).cols r' c' = w := by
  intro r' hr'
  rw [setConstCol_rows] at hr'
  obtain ⟨r, hr, rfl⟩ := List.mem_map.mp hr'
  rw [getCell_setConstCol_ne t c v c' hne hmem hwf r hr]
  exact hval r hr

/-- C5: the scheme annotator runs in custom mode exactly when the custom
scheme path is neither missing, empty, nor the literal `"null"`; there it
fails with `CustomSchemePathNotFound` when the path does not exist, and
otherwise attaches `custom_scheme_path` and `custom_scheme_name` to every
row with no format validation of the scheme string; in the remaining cases
it runs the built-in mode. -/
theorem C5_custom_mode (t : Table) (a : String) (fs : String → Bool) :
    (∀ p : String, p ≠ "" → p ≠ "null" →
      (fs p = false →
        add_amplicon_scheme_to_metadata t a (some p) fs = .error .CustomSchemePathNotFound) ∧
      (fs p = true →
        add_amplicon_scheme_to_metadata t a (some p) fs =
          .ok (setConstCol (setConstCol t "custom_scheme_path" (some p))
                "custom_scheme_name" (some a)) ∧
        (wfTable t = true →
          ∀ t', add_amplicon_scheme_to_metadata t a (some p) fs = .ok t' →
            ∀ r ∈ t'.rows, getCell t'.cols r "custom_scheme_name" = some a ∧
              getCell t'.cols r "custom_scheme_path" = some p))) ∧
    (∀ cp : Option String, (cp = none ∨ cp = some "" ∨ cp = some "null") →
      add_amplicon_scheme_to_metadata t a cp fs = builtinSchemeMode t a) := by
  constructor
  · intro p h1 h2
    constructor
    · intro hf
      rw [add_amplicon_custom t a fs p h1 h2, hf]
      simp
    · intro hf
      have hok : add_amplicon_scheme_to_metadata t a (some p) fs =
          .ok (setConstCol (setConstCol t "custom_scheme_path" (some p))
                "custom_scheme_name" (some a)) := by
        rw [add_amplicon_custom t a fs p h1 h2, hf]
        simp
      refine ⟨hok, ?_⟩
      intro hwf t' hok'
      have ht' : t' = setConstCol (setConstCol t "custom_scheme_path" (some p))
          "custom_scheme_name" (some a) := by
        rw [hok] at hok'
        injection hok' with h
        exact h.symm
      subst ht'
      set t1 := setConstCol t "custom_scheme_path" (some p) with ht1
      have hwf1 : wfTable t1 = true := setConstCol_wf t _ _ hwf
      intro r hr
      constructor
      · exact getCell_setConstCol_self t1 "custom_scheme_name" (some a) hwf1 r hr
      · refine getCell_setConstCol_pres t1 "custom_scheme_name" (some a)
          "custom_scheme_path" (by decide) (setConstCol_mem_self t _ _) hwf1 (some p) ?_ r hr
        exact getCell_setConstCol_self t "custom_scheme_path" (some p) hwf
  · intro cp hcp
    exact add_amplicon_builtin t a fs cp hcp

/-- C5 witness: the theorem applied at a concrete table, path and scheme. -/
theorem C5_custom_mode_witness :
    getCell ["sample", "custom_scheme_path", "custom_scheme_name"]
      [some "s1", some "/schemes/x", some "anything goes"] "custom_scheme_name" =
        some "anything goes" ∧
    getCell ["sample", "custom_scheme_path", "custom_scheme_name"]
      [some "s1", some "/schemes/x", some "anything goes"] "custom_scheme_path" =
        some "/schemes/x" :=
  (((C5_custom_mode ⟨["sample"], [[some "s1"]]⟩ "anything goes"
      (fun q => q == "/schemes/x")).1 "/schemes/x" (by decide) (by decide)).2
    (by decide)).2 (by decide)
    ⟨["sample", "custom_scheme_path", "custom_scheme_name"],
      [[some "s1", some "/schemes/x", some "anything goes"]]⟩ (by decide)
    [some "s1", some "/schemes/x", some "anything goes"] (by decide)

/-!  ## Lemmas about the path resolver  -/

theorem processRows_mem_inv (ex : List String) (rd : String) (cols : List String)
    (fdIdx : Nat) (hadFd : Bool) :
    ∀ (rows out : List (List (Option String))),
      processRows ex rd cols fdIdx hadFd rows = .ok out →
      ∀ r1 ∈ out, ∃ r ∈ rows, ∃ v,
        resolveFd ex rd (getCell cols r "fastq_directory") (getCell cols r "barcode") = .ok v ∧
        r1 = (if hadFd then r else r ++ [none]).set fdIdx v := by
  intro rows
  induction rows with
  | nil =>
    intro out h r1 hr1
    injection h with h
    subst h
    simp at hr1
  | cons r rs ih =>
    intro out h r1 hr1
    unfold processRows at h
    cases hres : resolveFd ex rd (getCell cols r "fastq_directory") (getCell cols r "barcode") with
    | error e => rw [hres] at h; exact Except.noConfusion h
    | ok v =>
      rw [hres] at h
      cases hrec : processRows ex rd cols fdIdx hadFd rs with
      | error e => rw [hrec] at h; exact Except.noConfusion h
      | ok rest =>
        rw [hrec] at h
        injection h with h
        subst h
        rcases List.mem_cons.mp hr1 with rfl | hmem
        · exact ⟨r, List.mem_cons_self r rs, v, hres, rfl⟩
        · obtain ⟨r0, hr0, v0, hres0, he0⟩ := ih rest hrec r1 hmem
          exact ⟨r0, List.mem_cons_of_mem r hr0, v0, hres0, he0⟩

theorem add_fastq_ok_inv (t : Table) (e : List String) (rd : String) (t2 : Table)
    (h : add_fastq_path_to_metadata t e rd "nanopore" = .ok t2) :
    ∃ rows1,
      processRows (existing_paths rd e) rd t.cols
        (colIdx "fastq_directory"
          (if containsStr t.cols "fastq_directory" then t.cols
           else t.cols ++ ["fastq_directory"]))
        (containsStr t.cols "fastq_directory") t.rows = .ok rows1 ∧
      t2.cols = (if containsStr t.cols "fastq_directory" then t.cols
                 else t.cols ++ ["fastq_directory"]) ∧
      t2.rows = rows1.filter (fun r => (getCell t2.cols r "fastq_directory").isSome) := by
  unfold add_fastq_path_to_metadata at h
  simp only [beq_self_eq_true, if_true] at h
  split at h
  · exact Except.noConfusion h
  · split at h
    · exact Except.noConfusion h
    · rename_i rows1 heq
      injection h with h
      subst h
      exact ⟨rows1, heq, rfl, rfl⟩

theorem add_fastq_not_nanopore (t : Table) (e : List String) (rd : String) (p : String)
    (hp : p ≠ "nanopore") :
    add_fastq_path_to_metadata t e rd p = .error .UnsupportedPlatform := by
  have hb : (p == "nanopore") = false := by simp [hp]
  simp [add_fastq_path_to_metadata, hb]

theorem step_getCell (cols : List String) (r : List (Option String)) (v : Option String)
    (hwfr : r.length = cols.length) :
    getCell (if containsStr cols "fastq_directory" then cols else cols ++ ["fastq_directory"])
      ((if containsStr cols "fastq_directory" then r else r ++ [none]).set
        (colIdx "fastq_directory"
          (if containsStr cols "fastq_directory" then cols else cols ++ ["fastq_directory"])) v)
      "fastq_directory" = v := by
  by_cases hf : containsStr cols "fastq_directory" = true
  · simp only [hf, if_true]
    have hmem : "fastq_directory" ∈ cols := (containsStr_iff _ _).mp hf
    have hlt : colIdx "fastq_directory" cols < r.length := by
      rw [hwfr]
      exact colIdx_lt_length hmem
    exact getD_set_self r _ v none hlt
  · simp only [Bool.not_eq_true] at hf
    simp only [hf, Bool.false_eq_true, if_false]
    have hmem : "fastq_directory" ∈ cols ++ ["fastq_directory"] :=
      List.mem_append_right cols (by simp)
    have hlt : colIdx "fastq_directory" (cols ++ ["fastq_directory"]) < (r ++ [none]).length := by
      have := colIdx_lt_length hmem
      simp only [List.length_append, List.length_singleton] at this
      simp [hwfr]
      omega
    exact getD_set_self _ _ v none hlt

/-!  ## Claim C2  -/

/-- C2: on platform `nanopore` each row is resolved in priority order — a
present, non-missing `fastq_directory` that is among the existing paths is
kept; else `run_dir/barcode` is tried; else `run_dir/lowercase(barcode)`;
else the row is unresolved.  Surviving rows all carry a resolved path that
came from their own row's resolution, and on the concrete example
(directories `barcode01`, `barcode02`; barcodes `barcode01`, `barcode03`)
only the `barcode01` row survives, with `fastq_directory =
/run/barcode01`. -/
theorem C2_path_resolution :
    add_fastq_path_to_metadata
        ⟨["sample", "barcode"], [[some "s1", some "barcode01"], [some "s2", some "barcode03"]]⟩
        ["barcode01", "barcode02"] "/run" "nanopore" =
      .ok ⟨["sample", "barcode", "fastq_directory"],
        [[some "s1", some "barcode01", some "/run/barcode01"]]⟩ ∧
    (∀ ex rd b (v : String), containsStr ex v = true →
      resolveFd ex rd (some v) b = .ok (some v)) ∧
    (∀ ex rd fd b, (∀ v, fd = some v → containsStr ex v = false) →
      containsStr ex (pathJoin rd b) = true →
      resolveFd ex rd fd (some b) = .ok (some (pathJoin rd b))) ∧
    (∀ ex rd fd b, (∀ v, fd = some v → containsStr ex v = false) →
      containsStr ex (pathJoin rd b) = false →
      containsStr ex (pathJoin rd (strLower b)) = true →
      resolveFd ex rd fd (some b) = .ok (some (pathJoin rd (strLower b)))) ∧
    (∀ ex rd fd b, (∀ v, fd = some v → containsStr ex v = false) →
      containsStr ex (pathJoin rd b) = false →
      containsStr ex (pathJoin rd (strLower b)) = false →
      resolveFd ex rd fd (some b) = .ok none) ∧
    (∀ (t : Table) e rd t2, add_fastq_path_to_metadata t e rd "nanopore" = .ok t2 →
      ∀ r' ∈ t2.rows, (getCell t2.cols r' "fastq_directory").isSome = true) ∧
    (∀ (t : Table) e rd t2, wfTable t = true →
      add_fastq_path_to_metadata t e rd "nanopore" = .ok t2 →
      ∀ r' ∈ t2.rows, ∃ r ∈ t.rows, ∃ w,
        resolveFd (existing_paths rd e) rd (getCell t.cols r "fastq_directory")
          (getCell t.cols r "barcode") = .ok (some w) ∧
        getCell t2.cols r' "fastq_directory" = some w) := by
  refine ⟨by decide, ?_, ?_, ?_, ?_, ?_, ?_⟩
  · intro ex rd b v h
    simp [resolveFd, h]
  · intro ex rd fd b h1 h2
    cases fd with
    | none => simp [resolveFd, resolveBarcode, h2]
    | some w => simp [resolveFd, h1 w rfl, resolveBarcode, h2]
  · intro ex rd fd b h1 h2 h3
    cases fd with
    | none => simp [resolveFd, resolveBarcode, h2, h3]
    | some w => simp [resolveFd, h1 w rfl, resolveBarcode, h2, h3]
  · intro ex rd fd b h1 h2 h3
    cases fd with
    | none => simp [resolveFd, resolveBarcode, h2, h3]
    | some w => simp [resolveFd, h1 w rfl, resolveBarcode, h2, h3]
  · intro t e rd t2 h r' hr'
    obtain ⟨rows1, heq, hcols, hrows⟩ := add_fastq_ok_inv t e rd t2 h
    rw [hrows] at hr'
    exact (List.mem_filter.mp hr').2
  · intro t e rd t2 hwf h r' hr'
    obtain ⟨rows1, heq, hcols, hrows⟩ := add_fastq_ok_inv t e rd t2 h
    rw [hrows] at hr'
    obtain ⟨hr1, hsome⟩ := List.mem_filter.mp hr'
    obtain ⟨r, hr, v, hres, he⟩ :=
      processRows_mem_inv (existing_paths rd e) rd t.cols _ _ t.rows rows1 heq r' hr1
    have hwfr : r.length = t.cols.length := (wfTable_iff t).mp hwf r hr
    have hcell : getCell t2.cols r' "fastq_directory" = v := by
      rw [hcols, he]
      exact step_getCell t.cols r v hwfr
    cases v with
    | none => rw [hcell] at hsome; simp at hsome
    | some w => exact ⟨r, hr, w, hres, hcell⟩

/-- C2 witness: the exact-barcode rule applied at concrete arguments. -/
theorem C2_path_resolution_witness :
    resolveFd ["/run/barcode01"] "/run" none (some "barcode01") = .ok (some "/run/barcode01") :=
  C2_path_resolution.2.2.1 ["/run/barcode01"] "/run" none "barcode01"
    (fun v hv => Option.noConfusion hv) (by decide)

/-!  ## Claim C10  -/

theorem resolveBarcode_some_mem (ex : List String) (rd : String) (b : Option String)
    (v : String) (h : resolveBarcode ex rd b = .ok (some v)) : containsStr ex v = true := by
  cases b with
  | none => exact Except.noConfusion h
  | some bb =>
    by_cases h1 : containsStr ex (pathJoin rd bb) = true
    · simp only [resolveBarcode, h1, if_true] at h
      injection h with h
      injection h with h
      exact h ▸ h1
    · simp only [Bool.not_eq_true] at h1
      by_cases h2 : containsStr ex (pathJoin rd (strLower bb)) = true
      · simp only [resolveBarcode, h1, Bool.false_eq_true, if_false, h2, if_true] at h
        injection h with h
        injection h with h
        exact h ▸ h2
      · simp only [Bool.not_eq_true] at h2
        simp only [resolveBarcode, h1, h2, Bool.false_eq_true, if_false] at h
        injection h with h
        exact Option.noConfusion h

/-- C10 counterexample: with run-directory entries `BARCODE01` and
`barcode01` and a row whose barcode is `BARCODE01`, the exact directory
`run_dir/BARCODE01` exists on disk and its name does not contain the
substring `arcode`, yet the row is NOT dropped: it resolves through the
lower-cased fallback to `/run/barcode01`. -/
theorem C10_glob_counterexample :
    hasSub "arcode".data "BARCODE01".data = false ∧
    ("BARCODE01" : String) ∈ ["BARCODE01", "barcode01"] ∧
    add_fastq_path_to_metadata ⟨["sample", "barcode"], [[some "s1", some "BARCODE01"]]⟩
        ["BARCODE01", "barcode01"] "/run" "nanopore" =
      .ok ⟨["sample", "barcode", "fastq_directory"],
        [[some "s1", some "BARCODE01", some "/run/barcode01"]]⟩ :=
  ⟨by decide, by decide, by decide⟩

/-- C10 (amended): the candidate set of the resolver is exactly the entries
of the resolved run directory matching the glob `*arcode*` (joined to the
run dir); any resolved `fastq_directory` value is a member of that set, so a
row can only resolve to a candidate whose entry name contains `arcode`; and
a row with no valid pre-assigned `fastq_directory` whose exact path AND
lower-cased path are both outside the candidate set is marked unresolved
(and hence dropped). -/
theorem C10_glob_candidates :
    (∀ rd entries (p : String), p ∈ existing_paths rd entries ↔
      ∃ en, en ∈ entries ∧ globArcode en = true ∧ p = pathJoin rd en) ∧
    (∀ name, globArcode name = true → hasSub "arcode".data name.data = true) ∧
    (∀ ex rd fd b (v : String), resolveFd ex rd fd b = .ok (some v) →
      containsStr ex v = true) ∧
    (∀ entries rd fd b,
      (∀ v, fd = some v → containsStr (existing_paths rd entries) v = false) →
      containsStr (existing_paths rd entries) (pathJoin rd b) = false →
      containsStr (existing_paths rd entries) (pathJoin rd (strLower b)) = false →
      resolveFd (existing_paths rd entries) rd fd (some b) = .ok none) := by
  refine ⟨?_, ?_, ?_, ?_⟩
  · intro rd entries p
    simp only [existing_paths, List.mem_map, List.mem_filter]
    constructor
    · rintro ⟨en, ⟨hen, hg⟩, he⟩
      exact ⟨en, hen, hg, he.symm⟩
    · rintro ⟨en, hen, hg, he⟩
      exact ⟨en, ⟨hen, hg⟩, he.symm⟩
  · intro name h
    exact ((Bool.and_eq_true _ _).mp ((globArcode.eq_1 name) ▸ h)).2
  · intro ex rd fd b v h
    cases fd with
    | none => exact resolveBarcode_some_mem ex rd b v h
    | some w =>
      by_cases hw : containsStr ex w = true
      · simp only [resolveFd, hw, if_true] at h
        injection h with h
        injection h with h
        exact h ▸ hw
      · simp only [Bool.not_eq_true] at hw
        simp only [resolveFd, hw, Bool.false_eq_true, if_false] at h
        exact resolveBarcode_some_mem ex rd b v h
  · intro entries rd fd b h1 h2 h3
    cases fd with
    | none => simp [resolveFd, resolveBarcode, h2, h3]
    | some w => simp [resolveFd, h1 w rfl, resolveBarcode, h2, h3]

/-- C10 witness: the candidate-membership direction applied concretely. -/
theorem C10_glob_candidates_witness :
    containsStr (existing_paths "/run" ["barcode01"]) "/run/barcode01" = true :=
  C10_glob_candidates.2.2.1 (existing_paths "/run" ["barcode01"]) "/run" none
    (some "barcode01") "/run/barcode01" (by decide)

/-!  ## Inversion of a successful schema check  -/

theorem of_bne_false {α : Type} [BEq α] [LawfulBEq α] {a b : α} (h : ¬((a != b) = true)) :
    a = b := by
  simpa [bne_iff_ne] using h

theorem renameCols_length (cols : List String) : (renameCols cols).length = cols.length := by
  simp [renameCols]

theorem check_metadata_ok_inv (t : Table) (t1 : Table) (h : check_metadata t = .ok t1) :
    t1.cols = renameCols t.cols ∧
    t1.rows = t.rows.filter (fun r => (getCell (renameCols t.cols) r "sample").isSome) ∧
    countStr "barcode" (renameCols t.cols) = 1 ∧
    countStr "sample" (renameCols t.cols) = 1 ∧
    (colValues ⟨renameCols t.cols, t.rows⟩ "barcode").Nodup ∧
    (colValues ⟨renameCols t.cols, t.rows⟩ "sample").Nodup := by
  simp only [check_metadata] at h
  split at h
  · exact Except.noConfusion h
  · split at h
    · exact Except.noConfusion h
    · split at h
      · exact Except.noConfusion h
      · split at h
        · exact Except.noConfusion h
        · split at h
          · exact Except.noConfusion h
          · rename_i h1 h2 h3 h4 h5
            injection h with h
            subst h
            refine ⟨rfl, rfl, of_bne_false h2, of_bne_false h4, ?_, ?_⟩
            · exact (dedup_length_iff_nodup _).mp (of_bne_false h3)
            · exact (dedup_length_iff_nodup _).mp (of_bne_false h5)

theorem check_metadata_nodup (t t1 : Table) (h : check_metadata t = .ok t1) :
    (colValues t1 "sample").Nodup ∧ (colValues t1 "barcode").Nodup := by
  obtain ⟨hcols, hrows, -, -, hbn, hsn⟩ := check_metadata_ok_inv t t1 h
  constructor
  · have he : colValues t1 "sample" =
        (t.rows.filter (fun r => (getCell (renameCols t.cols) r "sample").isSome)).map
          (fun r => getCell (renameCols t.cols) r "sample") := by
      rw [colValues, hcols, hrows]
    rw [he]
    exact List.Nodup.sublist (List.Sublist.map _ (List.filter_sublist t.rows)) hsn
  · have he : colValues t1 "barcode" =
        (t.rows.filter (fun r => (getCell (renameCols t.cols) r "sample").isSome)).map
          (fun r => getCell (renameCols t.cols) r "barcode") := by
      rw [colValues, hcols, hrows]
    rw [he]
    exact List.Nodup.sublist (List.Sublist.map _ (List.filter_sublist t.rows)) hbn

theorem check_metadata_wf (t t1 : Table) (hwf : wfTable t = true)
    (h : check_metadata t = .ok t1) : wfTable t1 = true := by
  obtain ⟨hcols, hrows, -, -, -, -⟩ := check_metadata_ok_inv t t1 h
  rw [wfTable_iff] at hwf ⊢
  intro r hr
  rw [hrows] at hr
  have hr0 : r ∈ t.rows := List.mem_of_mem_filter hr
  rw [hcols, renameCols_length]
  exact hwf r hr0

theorem check_metadata_mem_cols (t t1 : Table) (h : check_metadata t = .ok t1) :
    "sample" ∈ t1.cols ∧ "barcode" ∈ t1.cols := by
  obtain ⟨hcols, -, hbc, hsc, -, -⟩ := check_metadata_ok_inv t t1 h
  rw [hcols]
  exact ⟨countStr_one_mem hsc, countStr_one_mem hbc⟩

/-!  ## Column preservation through the path resolver  -/

theorem step_getCell_other (cols : List String) (r : List (Option String)) (v : Option String)
    (c : String) (hc : c ∈ cols) (hne : c ≠ "fastq_directory")
    (hwfr : r.length = cols.length) :
    getCell (if containsStr cols "fastq_directory" then cols else cols ++ ["fastq_directory"])
      ((if containsStr cols "fastq_directory" then r else r ++ [none]).set
        (colIdx "fastq_directory"
          (if containsStr cols "fastq_directory" then cols else cols ++ ["fastq_directory"])) v)
      c = getCell cols r c := by
  by_cases hf : containsStr cols "fastq_directory" = true
  · simp only [hf, if_true]
    have hfm : "fastq_directory" ∈ cols := (containsStr_iff _ _).mp hf
    have hij : colIdx "fastq_directory" cols ≠ colIdx c cols :=
      colIdx_ne_of_ne hfm hc (fun he => hne he.symm)
    exact getD_set_ne r _ _ v none hij
  · simp only [Bool.not_eq_true] at hf
    simp only [hf, Bool.false_eq_true, if_false]
    have hfnm : "fastq_directory" ∉ cols :=
      fun hm => by simp [(containsStr_iff cols "fastq_directory").mpr hm] at hf
    have hidx : colIdx "fastq_directory" (cols ++ ["fastq_directory"]) = cols.length := by
      rw [colIdx_append_not_mem ["fastq_directory"] hfnm]
      simp [colIdx]
    have hcidx : colIdx c (cols ++ ["fastq_directory"]) = colIdx c cols :=
      colIdx_append_left ["fastq_directory"] hc
    have hclt : colIdx c cols < r.length := by
      rw [hwfr]
      exact colIdx_lt_length hc
    rw [getCell, hcidx, hidx, getD_set_ne _ _ _ v none (by omega), getD_append_left _ _ _ _ hclt]
    rfl

theorem processRows_map_getCell (ex : List String) (rd : String) (cols : List String)
    (c : String) (hc : c ∈ cols) (hne : c ≠ "fastq_directory") :
    ∀ rows out, (∀ r ∈ rows, r.length = cols.length) →
      processRows ex rd cols
        (colIdx "fastq_directory"
          (if containsStr cols "fastq_directory" then cols else cols ++ ["fastq_directory"]))
        (containsStr cols "fastq_directory") rows = .ok out →
      out.map (fun r =>
          getCell (if containsStr cols "fastq_directory" then cols
                   else cols ++ ["fastq_directory"]) r c) =
        rows.map (fun r => getCell cols r c) := by
  intro rows
  induction rows with
  | nil =>
    intro out hwf h
    injection h with h
    subst h
    rfl
  | cons r rs ih =>
    intro out hwf h
    unfold processRows at h
    cases hres : resolveFd ex rd (getCell cols r "fastq_directory") (getCell cols r "barcode") with
    | error e => rw [hres] at h; exact Except.noConfusion h
    | ok v =>
      rw [hres] at h
      cases hrec : processRows ex rd cols
          (colIdx "fastq_directory"
            (if containsStr cols "fastq_directory" then cols else cols ++ ["fastq_directory"]))
          (containsStr cols "fastq_directory") rs with
      | error e => rw [hrec] at h; exact Except.noConfusion h
      | ok rest =>
        rw [hrec] at h
        injection h with h
        subst h
        have hwfr : r.length = cols.length := hwf r (List.mem_cons_self r rs)
        have htail := ih rest (fun x hx => hwf x (List.mem_cons_of_mem r hx)) hrec
        simp only [List.map_cons, htail]
        rw [step_getCell_other cols r v c hc hne hwfr]

theorem add_fastq_cols (t : Table) (e : List String) (rd : String) (t2 : Table)
    (h : add_fastq_path_to_metadata t e rd "nanopore" = .ok t2) :
    t2.cols = (if containsStr t.cols "fastq_directory" then t.cols
               else t.cols ++ ["fastq_directory"]) :=
  (add_fastq_ok_inv t e rd t2 h).choose_spec.2.1

theorem add_fastq_colValues_sublist (t : Table) (e : List String) (rd : String) (t2 : Table)
    (c : String) (hc : c ∈ t.cols) (hne : c ≠ "fastq_directory") (hwf : wfTable t = true)
    (h : add_fastq_path_to_metadata t e rd "nanopore" = .ok t2) :
    (colValues t2 c).Sublist (colValues t c) := by
  obtain ⟨rows1, heq, hcols, hrows⟩ := add_fastq_ok_inv t e rd t2 h
  have hmap := processRows_map_getCell (existing_paths rd e) rd t.cols c hc hne t.rows rows1
    ((wfTable_iff t).mp hwf) heq
  have h1 : colValues t2 c =
      (rows1.filter (fun r => (getCell t2.cols r "fastq_directory").isSome)).map
        (fun r => getCell t2.cols r c) := by
    rw [colValues, hrows]
  have h2 : (rows1.map (fun r => getCell t2.cols r c)) = colValues t c := by
    rw [colValues]
    rw [← hmap]
    simp [hcols]
  rw [h1, ← h2]
  exact List.Sublist.map _ (List.filter_sublist rows1)

theorem add_fastq_wf (t : Table) (e : List String) (rd : String) (t2 : Table)
    (hwf : wfTable t = true) (h : add_fastq_path_to_metadata t e rd "nanopore" = .ok t2) :
    wfTable t2 = true := by
  obtain ⟨rows1, heq, hcols, hrows⟩ := add_fastq_ok_inv t e rd t2 h
  rw [wfTable_iff]
  intro r' hr'
  rw [hrows] at hr'
  have hr1 : r' ∈ rows1 := List.mem_of_mem_filter hr'
  obtain ⟨r, hr, v, -, he⟩ := processRows_mem_inv (existing_paths rd e) rd t.cols _ _
    t.rows rows1 heq r' hr1
  have hwfr : r.length = t.cols.length := (wfTable_iff t).mp hwf r hr
  rw [he, hcols]
  by_cases hf : containsStr t.cols "fastq_directory" = true
  · simp [hf, hwfr]
  · simp only [Bool.not_eq_true] at hf
    simp [hf, hwfr]

theorem add_fastq_mem_cols (t : Table) (e : List String) (rd : String) (t2 : Table)
    (c : String) (hc : c ∈ t.cols)
    (h : add_fastq_path_to_metadata t e rd "nanopore" = .ok t2) : c ∈ t2.cols := by
  rw [add_fastq_cols t e rd t2 h]
  by_cases hf : containsStr t.cols "fastq_directory" = true
  · simpa [hf] using hc
  · simp only [Bool.not_eq_true] at hf
    simp [hf, List.mem_append, hc]

/-!  ## Column preservation through the scheme / platform / save stages  -/

theorem add_amplicon_ok_shape (t : Table) (a : String) (cp : Option String)
    (fs : String → Bool) (t3 : Table) (h : add_amplicon_scheme_to_metadata t a cp fs = .ok t3) :
    t3 = setConstCol t "scheme_name" (some a) ∨
    ∃ p, cp = some p ∧
      t3 = setConstCol (setConstCol t "custom_scheme_path" (some p))
            "custom_scheme_name" (some a) := by
  cases cp with
  | none =>
    left
    simp only [add_amplicon_scheme_to_metadata, builtinSchemeMode] at h
    split at h
    · exact Except.noConfusion h
    · injection h with h
      exact h.symm
  | some p =>
    by_cases h12 : (p != "" && p != "null") = true
    · right
      simp only [add_amplicon_scheme_to_metadata, h12, if_true] at h
      split at h
      · exact Except.noConfusion h
      · injection h with h
        exact ⟨p, rfl, h.symm⟩
    · left
      simp only [Bool.not_eq_true] at h12
      simp only [add_amplicon_scheme_to_metadata, h12, Bool.false_eq_true, if_false,
        builtinSchemeMode] at h
      split at h
      · exact Except.noConfusion h
      · injection h with h
        exact h.symm

theorem add_amplicon_colValues (t : Table) (a : String) (cp : Option String)
    (fs : String → Bool) (t3 : Table) (c : String) (hc : c ∈ t.cols)
    (hwf : wfTable t = true) (hc1 : c ≠ "scheme_name") (hc2 : c ≠ "custom_scheme_path")
    (hc3 : c ≠ "custom_scheme_name")
    (h : add_amplicon_scheme_to_metadata t a cp fs = .ok t3) :
    colValues t3 c = colValues t c := by
  rcases add_amplicon_ok_shape t a cp fs t3 h with rfl | ⟨p, -, rfl⟩
  · exact colValues_setConstCol_ne t "scheme_name" (some a) c hc1 hc hwf
  · rw [colValues_setConstCol_ne _ "custom_scheme_name" (some a) c hc3
      (setConstCol_mem_mono t _ _ c hc) (setConstCol_wf t _ _ hwf)]
    exact colValues_setConstCol_ne t "custom_scheme_path" (some p) c hc2 hc hwf

theorem add_amplicon_wf (t : Table) (a : String) (cp : Option String) (fs : String → Bool)
    (t3 : Table) (hwf : wfTable t = true)
    (h : add_amplicon_scheme_to_metadata t a cp fs = .ok t3) : wfTable t3 = true := by
  rcases add_amplicon_ok_shape t a cp fs t3 h with rfl | ⟨p, -, rfl⟩
  · exact setConstCol_wf t _ _ hwf
  · exact setConstCol_wf _ _ _ (setConstCol_wf t _ _ hwf)

theorem add_amplicon_mem_cols (t : Table) (a : String) (cp : Option String)
    (fs : String → Bool) (t3 : Table) (c : String) (hc : c ∈ t.cols)
    (h : add_amplicon_scheme_to_metadata t a cp fs = .ok t3) : c ∈ t3.cols := by
  rcases add_amplicon_ok_shape t a cp fs t3 h with rfl | ⟨p, -, rfl⟩
  · exact setConstCol_mem_mono t _ _ c hc
  · exact setConstCol_mem_mono _ _ _ c (setConstCol_mem_mono t _ _ c hc)

theorem save_metadata_ok_inv (t t5 : Table) (h : save_metadata t = .ok t5) :
    t5.cols = t.cols ∧
    t5.rows = t.rows.filter (fun r => (getCell t.cols r "sample").isSome) := by
  simp only [save_metadata] at h
  split at h
  · injection h with h
    subst h
    exact ⟨rfl, rfl⟩
  · exact Except.noConfusion h

theorem save_metadata_colValues_sublist (t t5 : Table) (c : String)
    (h : save_metadata t = .ok t5) : (colValues t5 c).Sublist (colValues t c) := by
  obtain ⟨hcols, hrows⟩ := save_metadata_ok_inv t t5 h
  have he : colValues t5 c =
      (t.rows.filter (fun r => (getCell t.cols r "sample").isSome)).map
        (fun r => getCell t.cols r c) := by
    rw [colValues, hcols, hrows]
  rw [he]
  exact List.Sublist.map _ (List.filter_sublist t.rows)

/-!  ## Claim C6  -/

/-- C6: once the schema check succeeds, `sample` and `barcode` values are
duplicate-free, and each later stage (path resolver, scheme annotator,
platform annotator, writer) only drops rows or sets other columns, so the
two columns stay duplicate-free through every stage up to the written
table. -/
theorem C6_uniqueness_invariant :
    ∀ (t t1 : Table), wfTable t = true → check_metadata t = .ok t1 →
      (colValues t1 "sample").Nodup ∧ (colValues t1 "barcode").Nodup ∧
      (∀ e rd t2, add_fastq_path_to_metadata t1 e rd "nanopore" = .ok t2 →
        (colValues t2 "sample").Nodup ∧ (colValues t2 "barcode").Nodup ∧
        (∀ a cp fs t3, add_amplicon_scheme_to_metadata t2 a cp fs = .ok t3 →
          (colValues t3 "sample").Nodup ∧ (colValues t3 "barcode").Nodup ∧
          (∀ pl, (colValues (add_platform_to_metadata t3 pl) "sample").Nodup ∧
            (colValues (add_platform_to_metadata t3 pl) "barcode").Nodup ∧
            (∀ t5, save_metadata (add_platform_to_metadata t3 pl) = .ok t5 →
              (colValues t5 "sample").Nodup ∧ (colValues t5 "barcode").Nodup)))) := by
  intro t t1 hwf hchk
  obtain ⟨hsn, hbn⟩ := check_metadata_nodup t t1 hchk
  have hwf1 := check_metadata_wf t t1 hwf hchk
  obtain ⟨hsm, hbm⟩ := check_metadata_mem_cols t t1 hchk
  refine ⟨hsn, hbn, ?_⟩
  intro e rd t2 h2
  have hs2 : (colValues t2 "sample").Nodup :=
    List.Nodup.sublist (add_fastq_colValues_sublist t1 e rd t2 "sample" hsm (by decide) hwf1 h2)
      hsn
  have hb2 : (colValues t2 "barcode").Nodup :=
    List.Nodup.sublist (add_fastq_colValues_sublist t1 e rd t2 "barcode" hbm (by decide) hwf1 h2)
      hbn
  have hwf2 := add_fastq_wf t1 e rd t2 hwf1 h2
  have hsm2 := add_fastq_mem_cols t1 e rd t2 "sample" hsm h2
  have hbm2 := add_fastq_mem_cols t1 e rd t2 "barcode" hbm h2
  refine ⟨hs2, hb2, ?_⟩
  intro a cp fs t3 h3
  have hs3 : (colValues t3 "sample").Nodup := by
    rw [add_amplicon_colValues t2 a cp fs t3 "sample" hsm2 hwf2 (by decide) (by decide)
      (by decide) h3]
    exact hs2
  have hb3 : (colValues t3 "barcode").Nodup := by
    rw [add_amplicon_colValues t2 a cp fs t3 "barcode" hbm2 hwf2 (by decide) (by decide)
      (by decide) h3]
    exact hb2
  have hwf3 := add_amplicon_wf t2 a cp fs t3 hwf2 h3
  have hsm3 := add_amplicon_mem_cols t2 a cp fs t3 "sample" hsm2 h3
  have hbm3 := add_amplicon_mem_cols t2 a cp fs t3 "barcode" hbm2 h3
  refine ⟨hs3, hb3, ?_⟩
  intro pl
  have hs4 : (colValues (add_platform_to_metadata t3 pl) "sample").Nodup := by
    rw [add_platform_to_metadata,
      colValues_setConstCol_ne t3 "platform" (some pl) "sample" (by decide) hsm3 hwf3]
    exact hs3
  have hb4 : (colValues (add_platform_to_metadata t3 pl) "barcode").Nodup := by
    rw [add_platform_to_metadata,
      colValues_setConstCol_ne t3 "platform" (some pl) "barcode" (by decide) hbm3 hwf3]
    exact hb3
  refine ⟨hs4, hb4, ?_⟩
  intro t5 h5
  exact ⟨List.Nodup.sublist (save_metadata_colValues_sublist _ t5 "sample" h5) hs4,
    List.Nodup.sublist (save_metadata_colValues_sublist _ t5 "barcode" h5) hb4⟩

/-- C6 witness: the invariant carried through a full concrete run. -/
theorem C6_uniqueness_invariant_witness :
    (colValues ⟨["sample", "barcode", "fastq_directory", "scheme_name", "platform"],
      [[some "s1", some "barcode01", some "/run/barcode01",
        some "artic-inrb-mpox/2500/v1.0.0", some "nanopore"]]⟩ "sample").Nodup ∧
    (colValues ⟨["sample", "barcode", "fastq_directory", "scheme_name", "platform"],
      [[some "s1", some "barcode01", some "/run/barcode01",
        some "artic-inrb-mpox/2500/v1.0.0", some "nanopore"]]⟩ "barcode").Nodup :=
  ((((C6_uniqueness_invariant ⟨["sample", "barcode"], [[some "s1", some "barcode01"]]⟩
      ⟨["sample", "barcode"], [[some "s1", some "barcode01"]]⟩ (by decide) (by decide)).2.2
    ["barcode01"] "/run"
    ⟨["sample", "barcode", "fastq_directory"],
      [[some "s1", some "barcode01", some "/run/barcode01"]]⟩ (by decide)).2.2
    "artic-inrb-mpox/2500/v1.0.0" none (fun _ => false)
    ⟨["sample", "barcode", "fastq_directory", "scheme_name"],
      [[some "s1", some "barcode01", some "/run/barcode01",
        some "artic-inrb-mpox/2500/v1.0.0"]]⟩ (by decide)).2.2 "nanopore").2.2
    ⟨["sample", "barcode", "fastq_directory", "scheme_name", "platform"],
      [[some "s1", some "barcode01", some "/run/barcode01",
        some "artic-inrb-mpox/2500/v1.0.0", some "nanopore"]]⟩ (by decide)

/-!  ## Claim C9  -/

/-- C9: the platform argument is lower-cased and `ont` is aliased to
`nanopore` before anything else runs, so any casing of `ont` gives exactly
the run of `nanopore`; any platform whose lower-cased form is neither `ont`
nor `nanopore` makes the run fail with `UnsupportedPlatform` at the
path-resolution stage (that is, once the schema check has passed). -/
theorem C9_platform_alias :
    (∀ p, strLower p = "ont" → ∀ (t : Table) e rd a cp fs,
      runPipeline t e rd p a cp fs = runPipeline t e rd "nanopore" a cp fs) ∧
    (∀ p, strLower p ≠ "ont" → strLower p ≠ "nanopore" →
      ∀ (t t1 : Table) e rd a cp fs, check_metadata t = .ok t1 →
        runPipeline t e rd p a cp fs = .error .UnsupportedPlatform) := by
  constructor
  · intro p hp t e rd a cp fs
    have h1 : normalizePlatform p = "nanopore" := by simp [normalizePlatform, hp]
    have h2 : normalizePlatform "nanopore" = "nanopore" := by decide
    unfold runPipeline
    rw [h1, h2]
  · intro p hp1 hp2 t t1 e rd a cp fs hchk
    have h1 : normalizePlatform p = strLower p := by simp [normalizePlatform, hp1]
    have h3 := add_fastq_not_nanopore t1 e rd (strLower p) hp2
    simp only [runPipeline, hchk, h1, h3]

/-- C9 witness: `--platform ONT` runs exactly like `--platform nanopore` on
a concrete input. -/
theorem C9_platform_alias_witness :
    runPipeline ⟨["sample", "barcode"], [[some "s1", some "barcode01"]]⟩ ["barcode01"] "/run"
        "ONT" "artic-inrb-mpox/2500/v1.0.0" none (fun _ => false) =
      runPipeline ⟨["sample", "barcode"], [[some "s1", some "barcode01"]]⟩ ["barcode01"] "/run"
        "nanopore" "artic-inrb-mpox/2500/v1.0.0" none (fun _ => false) :=
  C9_platform_alias.1 "ONT" (by decide) _ _ _ _ _ _

/-!  ## Inversion of the full pipeline  -/

theorem runPipeline_ok_inv (t : Table) (e : List String) (rd pArg a : String)
    (cp : Option String) (fs : String → Bool) (t5 : Table) (out : List (List String))
    (h : runPipeline t e rd pArg a cp fs = .ok (t5, out)) :
    ∃ t1 t2 t3,
      check_metadata t = .ok t1 ∧
      add_fastq_path_to_metadata t1 e rd (normalizePlatform pArg) = .ok t2 ∧
      add_amplicon_scheme_to_metadata t2 a cp fs = .ok t3 ∧
      save_metadata (add_platform_to_metadata t3 (normalizePlatform pArg)) = .ok t5 ∧
      out = writeCsv t5 := by
  unfold runPipeline at h
  split at h
  · exact Except.noConfusion h
  · rename_i t1 hchk
    split at h
    · exact Except.noConfusion h
    · rename_i t2 hfq
      split at h
      · exact Except.noConfusion h
      · rename_i t3 hsc
        split at h
        · exact Except.noConfusion h
        · rename_i t5x hsv
          injection h with h
          injection h with ha hb
          subst ha
          subst hb
          exact ⟨t1, t2, t3, hchk, hfq, hsc, hsv, rfl⟩

theorem containsStr_false (l : List String) (c : String) (h : c ∉ l) :
    containsStr l c = false := by
  cases hb : containsStr l c
  · rfl
  · exact absurd ((containsStr_iff l c).mp hb) h

theorem not_mem_append_singleton {c a : String} {l : List String} (h1 : c ∉ l) (h2 : c ≠ a) :
    c ∉ l ++ [a] := by
  intro hm
  rcases List.mem_append.mp hm with hm | hm
  · exact h1 hm
  · exact h2 (by simpa using hm)

theorem setConstCol_cols_new (t : Table) (c : String) (v : Option String) (h : c ∉ t.cols) :
    (setConstCol t c v).cols = t.cols ++ [c] := by
  rw [setConstCol_cols, containsStr_false t.cols c h]
  simp

theorem builtinSchemeMode_ok_inv (t : Table) (a : String) (t3 : Table)
    (h : builtinSchemeMode t a = .ok t3) : t3 = setConstCol t "scheme_name" (some a) := by
  simp only [builtinSchemeMode] at h
  split at h
  · exact Except.noConfusion h
  · injection h with h
    exact h.symm

theorem add_amplicon_custom_ok_inv (t : Table) (a : String) (fs : String → Bool) (p : String)
    (h1 : p ≠ "") (h2 : p ≠ "null") (t3 : Table)
    (h : add_amplicon_scheme_to_metadata t a (some p) fs = .ok t3) :
    t3 = setConstCol (setConstCol t "custom_scheme_path" (some p))
          "custom_scheme_name" (some a) := by
  rw [add_amplicon_custom t a fs p h1 h2] at h
  split at h
  · exact Except.noConfusion h
  · injection h with h
    exact h.symm

/-!  ## Claim C7  -/

/-- C7 counterexample: on a plain run the written header is
`sample, barcode, fastq_directory, scheme_name, platform` — the scheme
column comes BEFORE `platform`, not after it as the claim's arrangement
(`..., fastq_directory, platform, scheme_name`) states. -/
theorem C7_output_columns_counterexample :
    runPipeline ⟨["sample", "barcode"], [[some "s1", some "barcode01"]]⟩ ["barcode01"] "/run"
        "nanopore" "artic-inrb-mpox/2500/v1.0.0" none (fun _ => false) =
      .ok (⟨["sample", "barcode", "fastq_directory", "scheme_name", "platform"],
            [[some "s1", some "barcode01", some "/run/barcode01",
              some "artic-inrb-mpox/2500/v1.0.0", some "nanopore"]]⟩,
           [["sample", "barcode", "fastq_directory", "scheme_name", "platform"],
            ["s1", "barcode01", "/run/barcode01", "artic-inrb-mpox/2500/v1.0.0", "nanopore"]]) ∧
    ["sample", "barcode", "fastq_directory", "scheme_name", "platform"] ≠
      ["sample", "barcode", "fastq_directory", "platform", "scheme_name"] :=
  ⟨by decide, by decide⟩

/-- C7 (amended): a successful run writes the header row followed by one
record of rendered cells per surviving row (no index column), after dropping
rows with a missing sample; when none of the derived column names pre-exist,
the written columns are the renamed original columns, then
`fastq_directory`, then `scheme_name` (built-in mode) or
`custom_scheme_path` then `custom_scheme_name` (custom mode), and `platform`
LAST. -/
theorem C7_output_columns (t : Table) (e : List String) (rd pArg a : String)
    (cp : Option String) (fs : String → Bool) (t5 : Table) (out : List (List String))
    (h : runPipeline t e rd pArg a cp fs = .ok (t5, out))
    (hfd : "fastq_directory" ∉ renameCols t.cols)
    (hpl : "platform" ∉ renameCols t.cols)
    (hsn : "scheme_name" ∉ renameCols t.cols)
    (hcsp : "custom_scheme_path" ∉ renameCols t.cols)
    (hcsn : "custom_scheme_name" ∉ renameCols t.cols) :
    ((cp = none ∨ cp = some "" ∨ cp = some "null") →
      t5.cols = renameCols t.cols ++ ["fastq_directory", "scheme_name", "platform"]) ∧
    (∀ p, cp = some p → p ≠ "" → p ≠ "null" →
      t5.cols = renameCols t.cols ++
        ["fastq_directory", "custom_scheme_path", "custom_scheme_name", "platform"]) ∧
    out = t5.cols :: t5.rows.map (fun r => r.map renderCell) ∧
    (∀ r ∈ t5.rows, (getCell t5.cols r "sample").isSome = true) := by
  obtain ⟨t1, t2, t3, hchk, hfq, hsc, hsv, hout⟩ :=
    runPipeline_ok_inv t e rd pArg a cp fs t5 out h
  obtain ⟨hc1, -, -, -, -, -⟩ := check_metadata_ok_inv t t1 hchk
  by_cases hnp : normalizePlatform pArg = "nanopore"
  · rw [hnp] at hfq hsv
    have hc2 : t2.cols = renameCols t.cols ++ ["fastq_directory"] := by
      rw [add_fastq_cols t1 e rd t2 hfq, hc1, containsStr_false _ _ hfd]
      simp
    obtain ⟨hsc5, hsr5⟩ := save_metadata_ok_inv _ t5 hsv
    refine ⟨?_, ?_, ?_, ?_⟩
    · intro hcp
      rw [add_amplicon_builtin t2 a fs cp hcp] at hsc
      have ht3 := builtinSchemeMode_ok_inv t2 a t3 hsc
      have hc3 : t3.cols = (renameCols t.cols ++ ["fastq_directory"]) ++ ["scheme_name"] := by
        rw [ht3, setConstCol_cols_new t2 _ _ (hc2 ▸ not_mem_append_singleton hsn (by decide)),
          hc2]
      have hc4 : t5.cols = t3.cols ++ ["platform"] := by
        rw [hsc5, add_platform_to_metadata, setConstCol_cols_new t3 _ _ ?_]
        rw [hc3]
        exact not_mem_append_singleton (not_mem_append_singleton hpl (by decide)) (by decide)
      rw [hc4, hc3]
      simp
    · intro p hp hp1 hp2
      subst hp
      have ht3 := add_amplicon_custom_ok_inv t2 a fs p hp1 hp2 t3 hsc
      have hcspm : "custom_scheme_path" ∉ t2.cols :=
        hc2 ▸ not_mem_append_singleton hcsp (by decide)
      have hcin : (setConstCol t2 "custom_scheme_path" (some p)).cols =
          (renameCols t.cols ++ ["fastq_directory"]) ++ ["custom_scheme_path"] := by
        rw [setConstCol_cols_new t2 _ _ hcspm, hc2]
      have hc3 : t3.cols =
          ((renameCols t.cols ++ ["fastq_directory"]) ++ ["custom_scheme_path"]) ++
            ["custom_scheme_name"] := by
        rw [ht3, setConstCol_cols_new _ _ _ ?_, hcin]
        rw [hcin]
        exact not_mem_append_singleton
          (hc2 ▸ not_mem_append_singleton hcsn (by decide)) (by decide)
      have hc4 : t5.cols = t3.cols ++ ["platform"] := by
        rw [hsc5, add_platform_to_metadata, setConstCol_cols_new t3 _ _ ?_]
        rw [hc3]
        exact not_mem_append_singleton
          (not_mem_append_singleton (not_mem_append_singleton hpl (by decide)) (by decide))
          (by decide)
      rw [hc4, hc3]
      simp
    · rw [hout, writeCsv]
    · intro r hr
      rw [hsr5] at hr
      have hp := (List.mem_filter.mp hr).2
      rw [hsc5]
      exact hp
  · rw [add_fastq_not_nanopore t1 e rd (normalizePlatform pArg) hnp] at hfq
    exact Except.noConfusion hfq

/-- C7 witness: the amended column arrangement on a concrete built-in run. -/
theorem C7_output_columns_witness :
    (⟨["sample", "barcode", "fastq_directory", "scheme_name", "platform"],
      [[some "s1", some "barcode01", some "/run/barcode01",
        some "artic-inrb-mpox/2500/v1.0.0", some "nanopore"]]⟩ : Table).cols =
      renameCols ["sample", "barcode"] ++ ["fastq_directory", "scheme_name", "platform"] :=
  (C7_output_columns ⟨["sample", "barcode"], [[some "s1", some "barcode01"]]⟩ ["barcode01"]
    "/run" "nanopore" "artic-inrb-mpox/2500/v1.0.0" none (fun _ => false)
    ⟨["sample", "barcode", "fastq_directory", "scheme_name", "platform"],
      [[some "s1", some "barcode01", some "/run/barcode01",
        some "artic-inrb-mpox/2500/v1.0.0", some "nanopore"]]⟩
    [["sample", "barcode", "fastq_directory", "scheme_name", "platform"],
     ["s1", "barcode01", "/run/barcode01", "artic-inrb-mpox/2500/v1.0.0", "nanopore"]]
    (by decide) (by decide) (by decide) (by decide) (by decide) (by decide)).1 (Or.inl rfl)

/-!  ## Claim C8  -/

theorem save_metadata_ok_contains (t t5 : Table) (h : save_metadata t = .ok t5) :
    containsStr t.cols "sample" = true := by
  cases hb : containsStr t.cols "sample"
  · simp [save_metadata, hb] at h
  · rfl

theorem parse_render (v : Option String) (h : v ≠ some "") : parseCell (renderCell v) = v := by
  cases v with
  | none => rfl
  | some s =>
    have hs : ¬(s = "") := fun he => h (he ▸ rfl)
    simp [renderCell, parseCell, hs]

/-- C8: writing a table with the writer and reloading the records with the
CSV loader gives back the very same table (same sample/barcode pairs, same
derived columns), provided no cell holds the empty string (which `to_csv` /
`read_csv` conflate with a missing value); and saving is idempotent. -/
theorem C8_roundtrip (t t5 : Table) (h : save_metadata t = .ok t5)
    (hcells : ∀ r ∈ t.rows, ∀ v ∈ r, v ≠ some "") :
    loadCsv (writeCsv t5) = t5 ∧ save_metadata t5 = .ok t5 := by
  obtain ⟨hcols, hrows⟩ := save_metadata_ok_inv t t5 h
  constructor
  · have hr : (t5.rows.map (fun r => r.map renderCell)).map (fun l => l.map parseCell) =
        t5.rows := by
      rw [List.map_map]
      refine (List.map_congr_left fun r hrm => ?_).trans (List.map_id t5.rows)
      show (r.map renderCell).map parseCell = r
      rw [List.map_map]
      refine (List.map_congr_left fun v hv => ?_).trans (List.map_id r)
      have hrt : r ∈ t.rows := List.mem_of_mem_filter (hrows ▸ hrm)
      exact parse_render v (hcells r hrt v hv)
    have he : loadCsv (writeCsv t5) =
        ⟨t5.cols, (t5.rows.map (fun r => r.map renderCell)).map (fun l => l.map parseCell)⟩ :=
      rfl
    rw [he, hr]
  · have hcon5 : containsStr t5.cols "sample" = true := by
      rw [hcols]
      exact save_metadata_ok_contains t t5 h
    have hfix : t5.rows.filter (fun r => (getCell t5.cols r "sample").isSome) = t5.rows := by
      refine List.filter_eq_self.mpr ?_
      intro r hrm
      rw [hrows] at hrm
      have hp := (List.mem_filter.mp hrm).2
      rw [hcols]
      exact hp
    simp [save_metadata, hcon5, hfix]

/-- C8 witness: round trip and idempotence on a concrete written table. -/
theorem C8_roundtrip_witness :
    loadCsv (writeCsv ⟨["sample", "barcode", "fastq_directory", "scheme_name", "platform"],
      [[some "s1", some "barcode01", some "/run/barcode01",
        some "artic-inrb-mpox/2500/v1.0.0", some "nanopore"]]⟩) =
      ⟨["sample", "barcode", "fastq_directory", "scheme_name", "platform"],
        [[some "s1", some "barcode01", some "/run/barcode01",
          some "artic-inrb-mpox/2500/v1.0.0", some "nanopore"]]⟩ ∧
    save_metadata ⟨["sample", "barcode", "fastq_directory", "scheme_name", "platform"],
      [[some "s1", some "barcode01", some "/run/barcode01",
        some "artic-inrb-mpox/2500/v1.0.0", some "nanopore"]]⟩ =
      .ok ⟨["sample", "barcode", "fastq_directory", "scheme_name", "platform"],
        [[some "s1", some "barcode01", some "/run/barcode01",
          some "artic-inrb-mpox/2500/v1.0.0", some "nanopore"]]⟩ :=
  C8_roundtrip ⟨["sample", "barcode", "fastq_directory", "scheme_name", "platform"],
      [[some "s1", some "barcode01", some "/run/barcode01",
        some "artic-inrb-mpox/2500/v1.0.0", some "nanopore"]]⟩
    ⟨["sample", "barcode", "fastq_directory", "scheme_name", "platform"],
      [[some "s1", some "barcode01", some "/run/barcode01",
        some "artic-inrb-mpox/2500/v1.0.0", some "nanopore"]]⟩
    (by decide) (by decide)
